import Mathlib

/-!
# go-iso8583: the message codec

A shallow embedding of `internal/iso8583`: `types.go`, `bitmap.go`, `message.go`, and
`PadRight` of `utils.go`.

* A Go `string` is a sequence of bytes: `Str := List Byte`, `Byte := Fin 256`.
* A Go `int` is an `Int`; the counters and offsets of the loops of `bitmap.go`, which
  stay within constant bounds, are `Nat`.
* `[128]bool` is a function on `Fin 128`; `map[int]string` is a function `Int → Option Str`.
* A call that can fail returns a `Result`: a value, a Go `error`, or a run-time panic
  (index or slice bounds out of range).
* A loop without a bound of its own (`PadRight`) takes the number of iterations it may
  run; the loops over `1..64` and over the bytes of a string are structural.
-/

set_option autoImplicit false
set_option maxRecDepth 100000

namespace Iso8583

/-! ## Strings and bytes -/

/-- One byte of a Go string. -/
abbrev Byte := Fin 256

/-- Go `string`: an immutable sequence of bytes; `len` counts bytes. -/
abbrev Str := List Byte

/-- The bytes of an ASCII literal (every character used in this file is below 128). -/
def ascii (s : String) : Str := s.toList.map (fun c => Fin.ofNat c.toNat)

/-- Go `len(s)` as an `int`. -/
def len (s : Str) : Int := (s.length : Int)

/-- Go slice expression `s[lo:hi]` on a string: `none` is the run-time panic
"slice bounds out of range" (raised unless `0 ≤ lo ≤ hi ≤ len(s)`). -/
def slice (s : Str) (lo hi : Int) : Option Str :=
  if 0 ≤ lo ∧ lo ≤ hi ∧ hi ≤ len s then
    some ((s.drop lo.toNat).take (hi.toNat - lo.toNat))
  else none

/-- Go slice expression `s[lo:]`, which is `s[lo:len(s)]`. -/
def sliceFrom (s : Str) (lo : Int) : Option Str := slice s lo (len s)

/-- Go slice expression `s[:hi]`, which is `s[0:hi]`. -/
def sliceTo (s : Str) (hi : Int) : Option Str := slice s 0 hi

/-! ## Outcomes -/

/-- The errors built by `fmt.Errorf` in `bitmap.go` and `message.go`; each constructor
stands for one format string, its arguments kept as data. -/
inductive Err where
  /-- `"message too short"` -/
  | messageTooShort : Err
  /-- `"invalid bitmap length: got %d, want 16"` -/
  | invalidBitmapLength (got : Int) : Err
  /-- `"failed to parse hex: %v"`, raised at byte offset `i` of the bitmap -/
  | failedToParseHex (i : Nat) : Err
  /-- `"failed to parse bitmap: %v"` -/
  | failedToParseBitmap (cause : Err) : Err
  /-- `"out of range when attempting to read length prefix for field %d"` -/
  | lengthPfxOutOfRange (field : Int) : Err
  /-- `"invalid length prefix for field %d: %v"` -/
  | invalidLengthPfx (field : Int) : Err
  /-- `"out of range when attempting to read data for field %d"` -/
  | dataOutOfRange (field : Int) : Err
  /-- `"out of range when attempting to read fixed-length field %d"` -/
  | fixedOutOfRange (field : Int) : Err
  deriving DecidableEq, Repr

/-- What a call produces: a value (`err == nil`), an error, or a run-time panic. -/
inductive Result (α : Type) where
  | ok (a : α) : Result α
  | error (e : Err) : Result α
  | panic : Result α
  deriving DecidableEq

/-- The call returned normally with a nil error. -/
def Result.isOk {α : Type} : Result α → Bool
  | Result.ok _ => true
  | _ => false

/-- The call returned a non-nil error. -/
def Result.isError {α : Type} : Result α → Bool
  | Result.error _ => true
  | _ => false

/-! ## types.go -/

/-- The array type `[128]bool`. -/
abbrev Bitmap := Fin 128 → Bool

/-- The zero value of `[128]bool` (`var bitmap [128]bool`). -/
def Bitmap.zero : Bitmap := fun _ => false

/-- Index expression `bitmap[k]` for an index `k ≥ 0`; `none` is the panic "index out of
range". -/
def Bitmap.getNat? (b : Bitmap) (k : Nat) : Option Bool :=
  if h : k < 128 then some (b ⟨k, h⟩) else none

/-- Index expression `bitmap[k]` for an `int` index; `none` is the panic "index out of
range". -/
def Bitmap.get? (b : Bitmap) (k : Int) : Option Bool :=
  if 0 ≤ k then b.getNat? k.toNat else none

/-- Assignment `bitmap[k] = v` for an index `k ≥ 0`; `none` is the panic "index out of
range". -/
def Bitmap.set? (b : Bitmap) (k : Nat) (v : Bool) : Option Bitmap :=
  if k < 128 then some (fun x => if x.val = k then v else b x) else none

/-- The map type `map[int]string`, by its lookup: `none` when the key is absent. -/
abbrev Fields := Int → Option Str

/-- The result of `make(map[int]string)`; a nil map reads the same. -/
def Fields.empty : Fields := fun _ => none

/-- Assignment `fields[k] = v`. -/
def Fields.insert (f : Fields) (k : Int) (v : Str) : Fields :=
  fun x => if x = k then some v else f x

/-- Index expression `fields[k]`: the empty string when the key is absent. -/
def Fields.index (f : Fields) (k : Int) : Str := (f k).getD []

/-- Go struct `Message`. -/
structure Message where
  MTI : Str
  Bitmap : Bitmap
  Fields : Fields

/-- Go struct `FieldDescriptor` (the field `Type` is spelled `Type_`). -/
structure FieldDescriptor where
  Length : Int
  Variable : Bool
  Type_ : Str
  deriving DecidableEq

/-- The zero value of `FieldDescriptor`, which a map lookup yields for an absent key. -/
def FieldDescriptor.zero : FieldDescriptor := ⟨0, false, []⟩

/-- The package-level map `fieldDescriptors`, by its lookup. -/
def fieldDescriptors (i : Int) : Option FieldDescriptor :=
  if i = 2 then some ⟨19, true, ascii "n"⟩
  else if i = 3 then some ⟨6, false, ascii "n"⟩
  else if i = 4 then some ⟨12, false, ascii "n"⟩
  else if i = 7 then some ⟨10, false, ascii "n"⟩
  else if i = 11 then some ⟨6, false, ascii "n"⟩
  else if i = 12 then some ⟨6, false, ascii "n"⟩
  else if i = 13 then some ⟨4, false, ascii "n"⟩
  else if i = 43 then some ⟨40, false, ascii "an"⟩
  else if i = 63 then some ⟨11, true, ascii "an"⟩
  else none

/-! ## Standard-library calls -/

/-- Value of one hexadecimal digit, as `strconv.ParseUint(string(r), 16, 4)` computes it for
a one-character string: `'0'..'9'`, `'a'..'f'` and `'A'..'F'` give 0..15, everything else is
a syntax error. A byte of 128 or more starts a rune that is not a hexadecimal digit (a
multi-byte character or U+FFFD), so the call fails there too. -/
def parseHexDigit (c : Byte) : Option Nat :=
  if 48 ≤ c.val ∧ c.val ≤ 57 then some (c.val - 48)
  else if 97 ≤ c.val ∧ c.val ≤ 102 then some (c.val - 97 + 10)
  else if 65 ≤ c.val ∧ c.val ≤ 70 then some (c.val - 65 + 10)
  else none

/-- One upper-case hexadecimal digit character, for a value below 16. -/
def upperHexDigit (d : Nat) : Byte :=
  if d < 10 then Fin.ofNat (48 + d) else Fin.ofNat (65 + (d - 10))

/-- Go `fmt.Sprintf("%X", val)` for an unsigned value: its upper-case hexadecimal digits,
most significant first, without padding (`"0"` for zero). -/
def sprintfX (val : Nat) : Str :=
  (Nat.toDigits 16 val).map (fun ch => upperHexDigit (ch.toNat - (if ch.toNat < 97 then 48 else 87)))

/-- Go `fmt.Sprintf("%02d", n)` for `n ≥ 0`: the decimal digits of `n`, zero-padded on the
left to at least two characters. -/
def sprintf02d (n : Nat) : Str :=
  let ds : Str := (Nat.toDigits 10 n).map (fun ch => Fin.ofNat ch.toNat)
  List.replicate (2 - ds.length) (Fin.ofNat 48) ++ ds

/-- The digit loop of `strconv.Atoi` (its fast path): `ch -= '0'` on a byte wraps around,
and a result above 9 is a syntax error. -/
def atoiDigits : Str → Int → Option Int
  | [], n => some n
  | ch :: rest, n =>
    let d := (ch.val + 256 - 48) % 256
    if d > 9 then none else atoiDigits rest (n * 10 + (d : Int))

/-- Go `strconv.Atoi(s)` for strings shorter than 19 bytes (the fast path, which cannot
overflow): an optional sign, then one or more decimal digits; `none` is a non-nil error.
The codec calls it on two-byte strings only. -/
def Atoi (s : Str) : Option Int :=
  match s with
  | [] => none
  | c :: rest =>
    if c.val = 45 ∨ c.val = 43 then
      if rest = [] then none
      else
        match atoiDigits rest 0 with
        | none => none
        | some n => if c.val = 45 then some (-n) else some n
    else atoiDigits s 0

/-- The UTF-8 encodings of the characters `unicode.IsSpace` accepts: tab, line feed,
vertical tab, form feed, carriage return, space, U+0085, U+00A0, U+1680, U+2000..U+200A,
U+2028, U+2029, U+202F, U+205F and U+3000. -/
def spaceEncodings : List Str :=
  [[9], [10], [11], [12], [13], [32], [0xC2, 0x85], [0xC2, 0xA0], [0xE1, 0x9A, 0x80],
   [0xE2, 0x80, 0x80], [0xE2, 0x80, 0x81], [0xE2, 0x80, 0x82], [0xE2, 0x80, 0x83],
   [0xE2, 0x80, 0x84], [0xE2, 0x80, 0x85], [0xE2, 0x80, 0x86], [0xE2, 0x80, 0x87],
   [0xE2, 0x80, 0x88], [0xE2, 0x80, 0x89], [0xE2, 0x80, 0x8A], [0xE2, 0x80, 0xA8],
   [0xE2, 0x80, 0xA9], [0xE2, 0x80, 0xAF], [0xE2, 0x81, 0x9F], [0xE3, 0x80, 0x80]]

/-- The width in bytes of the white-space character `s` starts with, if it starts with
one. A first rune that decodes to anything else, `utf8.RuneError` included, is no white
space. -/
def leadingSpace (s : Str) : Option Nat :=
  (spaceEncodings.find? (fun e => s.take e.length == e)).map List.length

/-- The width in bytes of the white-space character `s` ends with, if it ends with one.
(`utf8.DecodeLastRuneInString` goes back to the nearest byte that starts a rune; the
encodings above have one such byte, their first.) -/
def trailingSpace (s : Str) : Option Nat :=
  (spaceEncodings.find? (fun e => e.length ≤ s.length && s.drop (s.length - e.length) == e)).map
    List.length

/-- Go `strings.TrimLeftFunc(s, unicode.IsSpace)`: leading white space removed one
character at a time, in at most `fuel` steps. -/
def trimLeftSpace : Nat → Str → Str
  | 0, s => s
  | fuel + 1, s =>
    match leadingSpace s with
    | some width => trimLeftSpace fuel (s.drop width)
    | none => s

/-- Go `strings.TrimRightFunc(s, unicode.IsSpace)`: trailing white space removed one
character at a time, in at most `fuel` steps. -/
def trimRightSpace : Nat → Str → Str
  | 0, s => s
  | fuel + 1, s =>
    match trailingSpace s with
    | some width => trimRightSpace fuel (s.take (s.length - width))
    | none => s

/-- Go `strings.TrimSpace`: all leading and trailing white space removed, as defined by
Unicode. Each step removes at least one byte, so `len(s)` steps are enough on either side.
(The ASCII fast path of the Go source gives the same string.) -/
def TrimSpace (s : Str) : Str :=
  let t := trimLeftSpace s.length s
  trimRightSpace t.length t

/-! ## bitmap.go -/

/-- The Go expression `val&(1<<(3-j)) != 0`. -/
def maskTest (val j : Nat) : Bool := val &&& (1 <<< (3 - j)) != 0

/-- The inner loop of `parseBitmap`, `for j := 0; j < 4; j++`, over the remaining values
of `j`: `bitmap[i*4+j] = val&(1<<(3-j)) != 0`; `none` is an index panic. -/
def parseBitmapBits (i val : Nat) : List Nat → Bitmap → Option Bitmap
  | [], bitmap => some bitmap
  | j :: js, bitmap =>
    match bitmap.set? (i * 4 + j) (maskTest val j) with
    | none => none
    | some bitmap1 => parseBitmapBits i val js bitmap1

/-- The outer loop of `parseBitmap`, `for i, hexChar := range bitmapHex`, over the bytes
still to read, `i` being the offset of the next one. The loop returns at the first rune
that is not a hexadecimal digit, so every rune it gets past is one ASCII byte and the
offset grows by one. -/
def parseBitmapLoop : Str → Nat → Bitmap → Result Bitmap
  | [], _, bitmap => Result.ok bitmap
  | hexChar :: rest, i, bitmap =>
    match parseHexDigit hexChar with
    | none => Result.error (Err.failedToParseHex i)
    | some val =>
      match parseBitmapBits i val [0, 1, 2, 3] bitmap with
      | none => Result.panic
      | some bitmap1 => parseBitmapLoop rest (i + 1) bitmap1

/-- Go `parseBitmap`: a 16-character hexadecimal string to 128 presence flags. (On an
error Go also returns the partly filled array; the only caller drops it.) -/
def parseBitmap (bitmapHex : Str) : Result Bitmap :=
  if len bitmapHex ≠ 16 then Result.error (Err.invalidBitmapLength (len bitmapHex))
  else parseBitmapLoop bitmapHex 0 Bitmap.zero

/-- The inner loop of `generateBitmap`, `for j := 0; j < 4; j++`, on a `byte` accumulator:
`val <<= 1`, then `val |= 1` when `bitmap[i+j]` is set. `none` is an index panic. -/
def generateBitmapBits (bitmap : Bitmap) (i : Nat) : List Nat → Nat → Option Nat
  | [], val => some val
  | j :: js, val =>
    let val1 := (val <<< 1) % 256
    match bitmap.getNat? (i + j) with
    | none => none
    | some flag => generateBitmapBits bitmap i js (if flag then val1 ||| 1 else val1)

/-- The outer loop of `generateBitmap`, `for i := 0; i < 64; i += 4`, over the remaining
values of `i`. -/
def generateBitmapLoop (bitmap : Bitmap) : List Nat → Str → Result Str
  | [], bitmapHex => Result.ok bitmapHex
  | i :: is, bitmapHex =>
    match generateBitmapBits bitmap i [0, 1, 2, 3] 0 with
    | none => Result.panic
    | some val => generateBitmapLoop bitmap is (bitmapHex ++ sprintfX val)

/-- The values `0, 4, ..., 60` that `i` takes in `generateBitmap`. -/
def quartetStarts : List Nat := (List.range 16).map (fun k => 4 * k)

/-- Go `generateBitmap`: the first 64 presence flags to a hexadecimal string. -/
def generateBitmap (bitmap : Bitmap) : Result Str :=
  generateBitmapLoop bitmap quartetStarts []

/-! ## message.go -/

/-- The values `1, 2, ..., 64` that `i` takes in `for i := 1; i <= 64; i++`. -/
def fieldNumbers : List Int := (List.range 64).map (fun (n : Nat) => (n : Int) + 1)

/-- How one iteration of the loop of `ParseMessage` ends. -/
inductive Step where
  /-- the iteration ends (also by `continue`) and the loop goes on -/
  | next (position : Int) (fields : Fields) : Step
  /-- `break` -/
  | stop (fields : Fields) : Step
  /-- `return nil, fmt.Errorf(...)` -/
  | fail (e : Err) : Step
  /-- a slice or index expression out of range -/
  | panic : Step

/-- The body of the loop of `ParseMessage`, for field number `i`, with the cursor at
`position` in `messageData` and the map `message.Fields` as filled so far. -/
def parseField (bitmap : Bitmap) (messageData : Str) (i : Int) (position : Int)
    (fields : Fields) : Step :=
  match bitmap.get? (i - 1) with
  | none => Step.panic
  | some false => Step.next position fields
  | some true =>
    match fieldDescriptors i with
    | none => Step.next position fields
    | some descriptor =>
      if descriptor.Variable then
        if i = 63 then
          match sliceFrom messageData position with
          | none => Step.panic
          | some fieldValue => Step.stop (fields.insert i fieldValue)
        else if position + 2 > len messageData then Step.fail (Err.lengthPfxOutOfRange i)
        else
          match slice messageData position (position + 2) with
          | none => Step.panic
          | some lengthPfxStr =>
            match Atoi lengthPfxStr with
            | none => Step.fail (Err.invalidLengthPfx i)
            | some lengthPfx =>
              if lengthPfx < 0 then Step.fail (Err.invalidLengthPfx i)
              else if position + 2 + lengthPfx > len messageData then
                Step.fail (Err.dataOutOfRange i)
              else
                match slice messageData (position + 2) (position + 2 + lengthPfx) with
                | none => Step.panic
                | some fieldValue =>
                  Step.next (position + 2 + lengthPfx)
                    (fields.insert i
                      (if descriptor.Type_ = ascii "an" then TrimSpace fieldValue
                       else fieldValue))
      else if i = 43 then
        if position + 40 > len messageData then Step.fail (Err.fixedOutOfRange i)
        else
          match slice messageData position (position + 40) with
          | none => Step.panic
          | some fieldValue => Step.next (position + 40) (fields.insert i fieldValue)
      else if position + descriptor.Length > len messageData then
        Step.fail (Err.fixedOutOfRange i)
      else
        match slice messageData position (position + descriptor.Length) with
        | none => Step.panic
        | some fieldValue =>
          Step.next (position + descriptor.Length) (fields.insert i fieldValue)

/-- The loop of `ParseMessage` over the remaining field numbers; it yields the map
`message.Fields` the function returns. -/
def parseFields (bitmap : Bitmap) (messageData : Str) : List Int → Int → Fields → Result Fields
  | [], _, fields => Result.ok fields
  | i :: rest, position, fields =>
    match parseField bitmap messageData i position fields with
    | Step.next position1 fields1 => parseFields bitmap messageData rest position1 fields1
    | Step.stop fields1 => Result.ok fields1
    | Step.fail e => Result.error e
    | Step.panic => Result.panic

/-- Go `ParseMessage`. -/
def ParseMessage (messageStr : Str) : Result Message :=
  if len messageStr < 20 then Result.error Err.messageTooShort
  else
    match sliceTo messageStr 4, slice messageStr 4 20 with
    | some mti, some bitmapHex =>
      match parseBitmap bitmapHex with
      | Result.error e => Result.error (Err.failedToParseBitmap e)
      | Result.panic => Result.panic
      | Result.ok bitmap =>
        match sliceFrom messageStr 20 with
        | none => Result.panic
        | some messageData =>
          match parseFields bitmap messageData fieldNumbers 0 Fields.empty with
          | Result.ok fields => Result.ok ⟨mti, bitmap, fields⟩
          | Result.error e => Result.error e
          | Result.panic => Result.panic
    | _, _ => Result.panic

/-- The loop of `GenerateMessage` over the remaining field numbers, `result` being the
string built so far. The flag it tests is `msg.Bitmap[i]`. -/
def generateFields (msg : Message) : List Int → Str → Result Str
  | [], result => Result.ok result
  | i :: rest, result =>
    match msg.Bitmap.get? i with
    | none => Result.panic
    | some false => generateFields msg rest result
    | some true =>
      let value := msg.Fields.index i
      let descriptor := (fieldDescriptors i).getD FieldDescriptor.zero
      if descriptor.Variable then
        generateFields msg rest (result ++ (sprintf02d value.length ++ value))
      else generateFields msg rest (result ++ value)

/-- Go `GenerateMessage`, called on a non-nil `*Message`. -/
def GenerateMessage (msg : Message) : Result Str :=
  match generateBitmap msg.Bitmap with
  | Result.ok bitmap => generateFields msg fieldNumbers (msg.MTI ++ bitmap)
  | Result.error e => Result.error e
  | Result.panic => Result.panic

/-! ## utils.go -/

/-- Go `PadRight`, whose loop `for { str += pad; if len(str) >= length { return
str[0:length] } }` has no bound of its own: the loop run for at most `fuel` iterations,
`none` when it has not returned by then. -/
def PadRight : Nat → Str → Str → Int → Option (Result Str)
  | 0, _, _, _ => none
  | fuel + 1, str, pad, length =>
    if len (str ++ pad) ≥ length then
      match slice (str ++ pad) 0 length with
      | some r => some (Result.ok r)
      | none => some Result.panic
    else PadRight fuel (str ++ pad) pad length

/-! ## Vocabulary of the statements -/

/-- Flag number `k` of a bitmap (index `k`, field number `k + 1`), for `k < 128`. -/
def Bitmap.flag (b : Bitmap) (k : Nat) : Bool := b (Fin.ofNat k)

/-- A hexadecimal digit character: `0-9`, `a-f` or `A-F`. -/
def isHexDigit (c : Byte) : Prop :=
  (48 ≤ c.val ∧ c.val ≤ 57) ∨ (97 ≤ c.val ∧ c.val ≤ 102) ∨ (65 ≤ c.val ∧ c.val ≤ 70)

instance (c : Byte) : Decidable (isHexDigit c) := by unfold isHexDigit; infer_instance

/-- ASCII upper-casing of one byte: `a-z` to `A-Z`, every other byte unchanged. -/
def upperCase (c : Byte) : Byte :=
  if 97 ≤ c.val ∧ c.val ≤ 122 then Fin.ofNat (c.val - 32) else c

/-- Numeric value of a hexadecimal digit character: `0-9` are 0..9, `a-f` and `A-F` are
10..15. -/
def hexValue (c : Byte) : Nat :=
  if 48 ≤ c.val ∧ c.val ≤ 57 then c.val - 48
  else if 97 ≤ c.val ∧ c.val ≤ 102 then c.val - 87
  else c.val - 55

/-- Two decimal digits for a number below 100, zero-padded. -/
def twoDigits (n : Nat) : Str := [Fin.ofNat (48 + n / 10), Fin.ofNat (48 + n % 10)]

/-- A value the documented wire format can carry in field `i`: at most 99 bytes in the
variable field 2, exactly the registry length in a fixed field. -/
def wireValueOk (i : Int) (s : Str) : Prop :=
  (i = 2 ∧ s.length ≤ 99) ∨ (i = 3 ∧ s.length = 6) ∨ (i = 4 ∧ s.length = 12) ∨
  (i = 7 ∧ s.length = 10) ∨ (i = 11 ∧ s.length = 6) ∨ (i = 12 ∧ s.length = 6) ∨
  (i = 13 ∧ s.length = 4) ∨ (i = 43 ∧ s.length = 40)

instance (i : Int) (s : Str) : Decidable (wireValueOk i s) := by
  unfold wireValueOk; infer_instance

/-- The presence flags of the keys of `v`: flag `i - 1` is set exactly when `v` has key
`i`. -/
def flagsOf (v : Fields) : Bitmap := fun x => (v ((x.val : Int) + 1)).isSome

/-- The encoding of one field on the wire: length digits and value for field 2, the value
alone for a fixed field. -/
def wireField (i : Int) (s : Str) : Str := if i = 2 then twoDigits s.length ++ s else s

/-- The field data of the wire format: the encodings of the present fields among `l`,
concatenated in the order of `l`. -/
def wireData (v : Fields) : List Int → Str
  | [] => []
  | i :: rest =>
    (match v i with
      | none => []
      | some s => wireField i s) ++ wireData v rest

/-- The message of scenario A: MTI `"0800"`, only field 3 flagged, field 3 = `"123456"`. -/
def scenarioA : Message :=
  ⟨ascii "0800", fun x => decide (x.val = 2), Fields.empty.insert 3 (ascii "123456")⟩

/-- The message of scenario B: MTI `"0800"`, only field 2 flagged,
field 2 = `"4111111111111111"`. -/
def scenarioB : Message :=
  ⟨ascii "0800", fun x => decide (x.val = 1), Fields.empty.insert 2 (ascii "4111111111111111")⟩

/-- The field `i` of the message a call returned, `none` also when the call failed. -/
def fieldOf (r : Result Message) (i : Int) : Option Str :=
  match r with
  | Result.ok m => m.Fields i
  | _ => none

/-- The keys in 0..129 of the `Fields` map of the returned message. -/
def keysOf (r : Result Message) : List Int :=
  match r with
  | Result.ok m => ((List.range 130).map (fun (n : Nat) => (n : Int))).filter
      (fun k => (m.Fields k).isSome)
  | _ => []

/-- The field numbers in 1..128 that the bitmap of the returned message flags. -/
def flaggedOf (r : Result Message) : List Nat :=
  match r with
  | Result.ok m => ((List.finRange 128).filter (fun x => m.Bitmap x)).map (fun x => x.val + 1)
  | _ => []

/-! ## Closed forms used in the proofs -/

/-- The flag that hexadecimal digit `c` gives at place `j` of its group of four:
bit `3 - j` of the digit's numeric value. -/
def hexBit (c : Byte) (j : Nat) : Bool :=
  ((parseHexDigit c).getD 0 / 2 ^ (3 - j)) % 2 == 1

/-- The value of the four flags `i .. i+3`, most significant first. -/
def nibble (b : Bitmap) (i : Nat) : Nat :=
  8 * (b.flag i).toNat + 4 * (b.flag (i + 1)).toNat + 2 * (b.flag (i + 2)).toNat
    + (b.flag (i + 3)).toNat

/-- The array that holds the decoded digits `hs` from flag `4 * i` on and `b0` elsewhere. -/
def layout (hs : Str) (i : Nat) (b0 : Bitmap) : Bitmap :=
  fun x =>
    if 4 * i ≤ x.val ∧ x.val < 4 * (i + hs.length) then
      hexBit (hs.getD (x.val / 4 - i) 0) (x.val % 4)
    else b0 x

/-- The string `generateBitmap` builds: one upper-case digit per group of four flags. -/
def hexOf (b : Bitmap) : Str := quartetStarts.map (fun i => upperHexDigit (nibble b i))

/-- What `ParseMessage` does once the length test has passed, in terms of the three parts
of the input. -/
def parseBody (mti bitmapHex messageData : Str) : Result Message :=
  match parseBitmap bitmapHex with
  | Result.error e => Result.error (Err.failedToParseBitmap e)
  | Result.panic => Result.panic
  | Result.ok bitmap =>
    match parseFields bitmap messageData fieldNumbers 0 Fields.empty with
    | Result.ok fields => Result.ok ⟨mti, bitmap, fields⟩
    | Result.error e => Result.error e
    | Result.panic => Result.panic

/-- The field numbers below 63. -/
def fieldNumbersBelow63 : List Int := (List.range 62).map (fun (n : Nat) => (n : Int) + 1)

/-- The map that holds `v` on the keys in `l` that `v` has, and `f` elsewhere. -/
def mergeFields (l : List Int) (v f : Fields) : Fields :=
  fun key => if key ∈ l then (match v key with | some s => some s | none => f key) else f key

/-- What one iteration of the loop of `GenerateMessage` appends for `i`: nothing unless
flag number `i` (the flag of field `i + 1`) is set, else the value stored under key `i`,
after its length digits when the descriptor of `i` is variable. -/
def emittedField (m : Message) (i : Int) : Str :=
  if m.Bitmap.flag i.toNat then
    (if ((fieldDescriptors i).getD FieldDescriptor.zero).Variable then
      sprintf02d (m.Fields.index i).length ++ m.Fields.index i
    else m.Fields.index i)
  else []

/-- What the loop of `GenerateMessage` appends over the field numbers `l`. -/
def emitted (m : Message) : List Int → Str
  | [] => []
  | i :: rest => emittedField m i ++ emitted m rest

/-! ## Vocabulary of the statements: errors, padding, tiling -/

/-- The string `pad ++ pad ++ ...` of `n` copies of `pad`. -/
def repeatPad (pad : Str) : Nat → Str
  | 0 => []
  | n + 1 => pad ++ repeatPad pad n

/-- A message with MTI `"0800"`, no flag set, and the value `"X"` stored under key 64. -/
def upperUnset : Message :=
  ⟨ascii "0800", fun _ => false, Fields.empty.insert 64 (ascii "X")⟩

/-- The same message with the flag at index 64 (field 65) set. -/
def upperSet : Message :=
  ⟨ascii "0800", fun x => decide (x.val = 64), Fields.empty.insert 64 (ascii "X")⟩

/-- The response message of the demonstration program: MTI `"0210"`, `Fields {39: "00"}`,
and a bitmap left at its zero value. -/
def demoResponse : Message :=
  ⟨ascii "0210", Bitmap.zero, Fields.empty.insert 39 (ascii "00")⟩

/-- The loop of `ParseMessage` run over the field numbers `l` without reaching its end:
the cursor and the map after these iterations, `none` when one of them leaves the loop
(`break`, an error or a panic). -/
def runFields (bitmap : Bitmap) (messageData : Str) : List Int → Int → Fields →
    Option (Int × Fields)
  | [], position, fields => some (position, fields)
  | i :: rest, position, fields =>
    match parseField bitmap messageData i position fields with
    | Step.next position1 fields1 => runFields bitmap messageData rest position1 fields1
    | _ => none

/-- The cursor `position` and the map `message.Fields` at the start of the iteration for
field number `i`, `none` when the loop ends before that iteration. -/
def loopState (bitmap : Bitmap) (messageData : Str) (i : Int) : Option (Int × Fields) :=
  runFields bitmap messageData (fieldNumbers.filter (fun j => decide (j < i))) 0 Fields.empty

/-- The bytes field `i` takes at least: its registry length for a flagged fixed field, the
two bytes of the length digits for a flagged field 2, nothing otherwise. -/
def minFieldLength (b : Bitmap) (i : Int) : Int :=
  if b.get? (i - 1) = some true then
    match fieldDescriptors i with
    | some desc => if desc.Variable then (if i = 2 then 2 else 0) else desc.Length
    | none => 0
  else 0

/-- The sum of the registry lengths of the flagged fixed fields among `l`, plus 2 if field
2 is among them and flagged. -/
def minDataLength (b : Bitmap) (l : List Int) : Int := (l.map (minFieldLength b)).sum

/-- An ASCII decimal digit, `'0'..'9'`. -/
def isDigit (c : Byte) : Prop := 48 ≤ c.val ∧ c.val ≤ 57

instance (c : Byte) : Decidable (isDigit c) := by unfold isDigit; infer_instance

/-- The two-byte strings `strconv.Atoi` turns into a number that is not negative: two
digits, `'+'` and a digit, or `"-0"`. -/
def acceptedPfx : Str → Prop
  | [c1, c2] =>
    (isDigit c1 ∧ isDigit c2) ∨ (c1.val = 43 ∧ isDigit c2) ∨ (c1.val = 45 ∧ c2.val = 48)
  | _ => False

instance (s : Str) : Decidable (acceptedPfx s) := by
  unfold acceptedPfx
  split <;> infer_instance

/-- Flag number `k` of the bitmap of the message a call returned, `false` when it
failed. -/
def flagOf (r : Result Message) (k : Nat) : Bool :=
  match r with
  | Result.ok m => m.Bitmap.flag k
  | _ => false

/-- The stored values of the fields among `l`, concatenated in the order of `l`, the value
of field 2 preceded by the two bytes `pfx`. -/
def tiles (f : Fields) (pfx : Str) : List Int → Str
  | [] => []
  | i :: rest =>
    (match f i with
      | none => []
      | some s => if i = 2 then pfx ++ s else s) ++ tiles f pfx rest

/-- The field numbers above 2. -/
def fieldNumbersAbove2 : List Int := fieldNumbers.filter (fun j => decide (2 < j))

/-- The number the two length digits at offset `c` of the data part give, as
`strconv.Atoi` reads them; 0 when it reads no number. -/
def lengthDigitsAt (data : Str) (c : Int) : Int :=
  (Atoi ((data.drop c.toNat).take 2)).getD 0

/-- The bytes field `i` needs when the unread part of the data starts at offset `c`: its
registry length for a flagged fixed field (40 for field 43), the two length digits and the
number they give for a flagged field 2, nothing for a field that is not flagged, has no
descriptor, or is field 63. -/
def bytesNeeded (b : Bitmap) (data : Str) (i : Int) (c : Int) : Int :=
  if b.get? (i - 1) = some true then
    match fieldDescriptors i with
    | some desc =>
      if desc.Variable then (if i = 2 then 2 + lengthDigitsAt data c else 0) else desc.Length
    | none => 0
  else 0

/-- The offset of the first unread byte of the data part once the fields `l` have been
read in order, starting at offset `c`. -/
def unreadAfter (b : Bitmap) (data : Str) : List Int → Int → Int
  | [], c => c
  | j :: rest, c => unreadAfter b data rest (c + bytesNeeded b data j c)

/-- The offset of the first unread byte of the data part when field `i` comes to be read:
the fields below `i` read in ascending order from offset 0. -/
def unreadAt (b : Bitmap) (data : Str) (i : Int) : Int :=
  unreadAfter b data (fieldNumbers.filter (fun j => decide (j < i))) 0

/-! ## Bitmap codec: lemmas -/

theorem flag_eq (b : Bitmap) (k : Nat) (h : k < 128) : b.flag k = b ⟨k, h⟩ := by
  unfold Bitmap.flag
  congr 1
  apply Fin.ext
  simp [Fin.ofNat, Nat.mod_eq_of_lt h]

theorem getNat?_lt (b : Bitmap) (k : Nat) (h : k < 128) : b.getNat? k = some (b.flag k) := by
  unfold Bitmap.getNat?
  simp [h, flag_eq b k h]

theorem set?_lt (b : Bitmap) (k : Nat) (v : Bool) (h : k < 128) :
    b.set? k v = some (fun x => if x.val = k then v else b x) := by
  unfold Bitmap.set?
  simp [h]

theorem sprintfX_digit : ∀ v : Fin 16, sprintfX v.val = [upperHexDigit v.val] := by decide

theorem parseHexDigit_upper :
    ∀ v : Fin 16, parseHexDigit (upperHexDigit v.val) = some v.val := by decide

theorem bit_test_fin : ∀ (v : Fin 16) (j : Fin 4),
    maskTest v.val j.val = ((v.val / 2 ^ (3 - j.val)) % 2 == 1) := by decide

theorem bit_test (v j : Nat) (hv : v < 16) (hj : j < 4) :
    maskTest v j = ((v / 2 ^ (3 - j)) % 2 == 1) :=
  bit_test_fin ⟨v, hv⟩ ⟨j, hj⟩

theorem parseHexDigit_lt : ∀ c : Byte, ∀ v, parseHexDigit c = some v → v < 16 := by
  intro c v h
  unfold parseHexDigit at h
  split at h
  · simp at h; omega
  · split at h
    · simp at h; omega
    · split at h
      · simp at h; omega
      · simp at h

theorem parseHexDigit_isSome (c : Byte) : (parseHexDigit c).isSome ↔ isHexDigit c := by
  unfold parseHexDigit isHexDigit
  split
  · simp; left; assumption
  · split
    · simp; right; left; assumption
    · split
      · simp; right; right; assumption
      · simp; omega

theorem parseHexDigit_none (c : Byte) : parseHexDigit c = none ↔ ¬ isHexDigit c := by
  rw [← parseHexDigit_isSome]
  cases parseHexDigit c <;> simp

theorem upper_of_parse : ∀ c : Byte, ∀ v : Fin 16,
    parseHexDigit c = some v.val → upperHexDigit v.val = upperCase c := by decide

theorem parseBitmapBits_eq (i val : Nat) (b : Bitmap) (hi : i < 32) (hv : val < 16) :
    parseBitmapBits i val [0, 1, 2, 3] b =
      some (fun x => if 4 * i ≤ x.val ∧ x.val < 4 * i + 4
        then (val / 2 ^ (3 - x.val % 4)) % 2 == 1 else b x) := by
  have t0 := bit_test val 0 hv (by omega)
  have t1 := bit_test val 1 hv (by omega)
  have t2 := bit_test val 2 hv (by omega)
  have t3 := bit_test val 3 hv (by omega)
  rw [parseBitmapBits, set?_lt _ _ _ (by omega), t0]
  simp only
  rw [parseBitmapBits, set?_lt _ _ _ (by omega), t1]
  simp only
  rw [parseBitmapBits, set?_lt _ _ _ (by omega), t2]
  simp only
  rw [parseBitmapBits, set?_lt _ _ _ (by omega), t3]
  simp only [parseBitmapBits, Option.some.injEq]
  funext x
  by_cases h3 : x.val = i * 4 + 3
  · rw [if_pos h3, if_pos (by omega), (by omega : x.val % 4 = 3)]
  · rw [if_neg h3]
    by_cases h2 : x.val = i * 4 + 2
    · rw [if_pos h2, if_pos (by omega), (by omega : x.val % 4 = 2)]
    · rw [if_neg h2]
      by_cases h1 : x.val = i * 4 + 1
      · rw [if_pos h1, if_pos (by omega), (by omega : x.val % 4 = 1)]
      · rw [if_neg h1]
        by_cases h0 : x.val = i * 4 + 0
        · rw [if_pos h0, if_pos (by omega), (by omega : x.val % 4 = 0)]
        · rw [if_neg h0, if_neg (by omega)]

theorem parseBitmapLoop_ok (hs : Str) : ∀ (i : Nat) (b0 : Bitmap),
    i + hs.length ≤ 32 → (∀ c ∈ hs, isHexDigit c) →
    parseBitmapLoop hs i b0 = Result.ok (layout hs i b0) := by
  induction hs with
  | nil =>
    intro i b0 _ _
    rw [parseBitmapLoop]
    congr 1
    funext x
    simp only [layout, List.length_nil, Nat.add_zero]
    rw [if_neg (by omega)]
  | cons c rest ih =>
    intro i b0 hlen hhex
    have hc : isHexDigit c := hhex c (List.mem_cons_self c rest)
    have hrest : ∀ d ∈ rest, isHexDigit d := fun d hd => hhex d (List.mem_cons_of_mem c hd)
    simp only [List.length_cons] at hlen
    obtain ⟨val, hval⟩ := Option.isSome_iff_exists.mp ((parseHexDigit_isSome c).mpr hc)
    have hv : val < 16 := parseHexDigit_lt c val hval
    rw [parseBitmapLoop, hval]
    simp only
    rw [parseBitmapBits_eq i val b0 (by omega) hv]
    simp only
    rw [ih (i + 1) _ (by omega) hrest]
    congr 1
    funext x
    simp only [layout, List.length_cons]
    by_cases h1 : 4 * (i + 1) ≤ x.val ∧ x.val < 4 * (i + 1 + rest.length)
    · rw [if_pos h1, if_pos (by omega)]
      have : x.val / 4 - i = (x.val / 4 - (i + 1)) + 1 := by omega
      rw [this, List.getD_cons_succ]
    · rw [if_neg h1]
      by_cases h2 : 4 * i ≤ x.val ∧ x.val < 4 * i + 4
      · rw [if_pos h2, if_pos (by omega)]
        have : x.val / 4 - i = 0 := by omega
        rw [this, List.getD_cons_zero]
        simp only [hexBit, hval, Option.getD_some]
      · rw [if_neg h2, if_neg (by omega)]

theorem parseBitmapLoop_err (hs : Str) : ∀ (i : Nat) (b0 : Bitmap),
    i + hs.length ≤ 32 → (∃ c ∈ hs, ¬ isHexDigit c) →
    ∃ k, parseBitmapLoop hs i b0 = Result.error (Err.failedToParseHex k) := by
  induction hs with
  | nil =>
    intro i b0 _ h
    obtain ⟨c, hc, _⟩ := h
    cases hc
  | cons c rest ih =>
    intro i b0 hlen hbad
    simp only [List.length_cons] at hlen
    by_cases hc : isHexDigit c
    · obtain ⟨val, hval⟩ := Option.isSome_iff_exists.mp ((parseHexDigit_isSome c).mpr hc)
      have hv : val < 16 := parseHexDigit_lt c val hval
      rw [parseBitmapLoop, hval]
      simp only
      rw [parseBitmapBits_eq i val b0 (by omega) hv]
      simp only
      apply ih (i + 1) _ (by omega)
      obtain ⟨d, hd, hbadd⟩ := hbad
      rcases List.mem_cons.mp hd with h | h
      · exact absurd (h ▸ hc) hbadd
      · exact ⟨d, h, hbadd⟩
    · refine ⟨i, ?_⟩
      rw [parseBitmapLoop, (parseHexDigit_none c).mpr hc]

theorem nibble_lt (b : Bitmap) (i : Nat) : nibble b i < 16 := by
  unfold nibble
  cases b.flag i <;> cases b.flag (i + 1) <;> cases b.flag (i + 2) <;> cases b.flag (i + 3) <;>
    decide

theorem generateBitmapBits_aux (b : Bitmap) (i : Nat) (f0 f1 f2 f3 : Bool)
    (h0 : b.getNat? (i + 0) = some f0) (h1 : b.getNat? (i + 1) = some f1)
    (h2 : b.getNat? (i + 2) = some f2) (h3 : b.getNat? (i + 3) = some f3) :
    generateBitmapBits b i [0, 1, 2, 3] 0 =
      some (8 * f0.toNat + 4 * f1.toNat + 2 * f2.toNat + f3.toNat) := by
  simp only [generateBitmapBits, h0, h1, h2, h3]
  cases f0 <;> cases f1 <;> cases f2 <;> cases f3 <;> rfl

theorem generateBitmapBits_eq (b : Bitmap) (i : Nat) (h : i + 3 < 128) :
    generateBitmapBits b i [0, 1, 2, 3] 0 = some (nibble b i) :=
  generateBitmapBits_aux b i _ _ _ _ (getNat?_lt b (i + 0) (by omega))
    (getNat?_lt b (i + 1) (by omega)) (getNat?_lt b (i + 2) (by omega))
    (getNat?_lt b (i + 3) (by omega))

theorem generateBitmapLoop_eq (b : Bitmap) (is : List Nat) : ∀ (acc : Str),
    (∀ i ∈ is, i + 3 < 128) →
    generateBitmapLoop b is acc =
      Result.ok (acc ++ is.map (fun i => upperHexDigit (nibble b i))) := by
  induction is with
  | nil => intro acc _; simp [generateBitmapLoop]
  | cons i rest ih =>
    intro acc h
    rw [generateBitmapLoop, generateBitmapBits_eq b i (h i (List.mem_cons_self i rest))]
    simp only
    rw [ih _ (fun k hk => h k (List.mem_cons_of_mem i hk))]
    have := sprintfX_digit ⟨nibble b i, nibble_lt b i⟩
    simp only at this
    rw [this]
    simp

theorem quartetStarts_bound : ∀ i ∈ quartetStarts, i + 3 < 128 := by decide

theorem generateBitmap_eq (b : Bitmap) : generateBitmap b = Result.ok (hexOf b) := by
  unfold generateBitmap hexOf
  rw [generateBitmapLoop_eq b quartetStarts [] quartetStarts_bound]
  simp

theorem hexOf_length (b : Bitmap) : (hexOf b).length = 16 := by
  simp [hexOf, quartetStarts]

theorem hexOf_getD (b : Bitmap) (n : Nat) (h : n < 16) :
    (hexOf b).getD n 0 = upperHexDigit (nibble b (4 * n)) := by
  have hl : n < (hexOf b).length := by rw [hexOf_length]; exact h
  rw [List.getD_eq_getElem _ _ hl]
  simp [hexOf, quartetStarts]

theorem isHexDigit_upper : ∀ v : Fin 16, isHexDigit (upperHexDigit v.val) := by decide

theorem hexOf_isHex (b : Bitmap) : ∀ c ∈ hexOf b, isHexDigit c := by
  intro c hc
  simp only [hexOf, List.mem_map] at hc
  obtain ⟨i, _, rfl⟩ := hc
  exact isHexDigit_upper ⟨nibble b i, nibble_lt b i⟩

theorem bits_of_nibble : ∀ (f0 f1 f2 f3 : Bool) (j : Fin 4),
    ((8 * f0.toNat + 4 * f1.toNat + 2 * f2.toNat + f3.toNat) / 2 ^ (3 - j.val) % 2 == 1) =
      [f0, f1, f2, f3].getD j.val false := by decide

theorem hexBit_nibble (b : Bitmap) (i j : Nat) (hj : j < 4) :
    hexBit (upperHexDigit (nibble b i)) j = b.flag (i + j) := by
  have hp := parseHexDigit_upper ⟨nibble b i, nibble_lt b i⟩
  simp only at hp
  unfold hexBit
  rw [hp, Option.getD_some]
  unfold nibble
  have := bits_of_nibble (b.flag i) (b.flag (i + 1)) (b.flag (i + 2)) (b.flag (i + 3)) ⟨j, hj⟩
  simp only at this
  rw [this]
  interval_cases j <;> rfl

theorem hexValue_eq (c : Byte) (h : isHexDigit c) : parseHexDigit c = some (hexValue c) := by
  unfold isHexDigit at h
  unfold parseHexDigit hexValue
  split
  · rfl
  · split
    · congr 1; omega
    · split
      · congr 1; omega
      · omega

theorem parseBitmap_ok (h : Str) (hlen : h.length = 16) (hhex : ∀ c ∈ h, isHexDigit c) :
    parseBitmap h = Result.ok (layout h 0 Bitmap.zero) := by
  unfold parseBitmap
  have : len h = 16 := by simp [len, hlen]
  rw [if_neg (by rw [this]; decide)]
  exact parseBitmapLoop_ok h 0 Bitmap.zero (by omega) hhex

theorem layout_high (h : Str) (hlen : h.length = 16) (x : Fin 128) (hx : 64 ≤ x.val) :
    layout h 0 Bitmap.zero x = false := by
  unfold layout
  rw [if_neg (by omega)]
  rfl

theorem layout_low (h : Str) (hlen : h.length = 16) (k j : Nat) (hk : k < 16) (hj : j < 4) :
    (layout h 0 Bitmap.zero).flag (4 * k + j) = hexBit (h.getD k 0) j := by
  rw [flag_eq _ _ (by omega)]
  unfold layout
  simp only
  rw [if_pos (by omega)]
  have h1 : (4 * k + j) / 4 - 0 = k := by omega
  have h2 : (4 * k + j) % 4 = j := by omega
  rw [h1, h2]

theorem layout_hexOf (b : Bitmap) (x : Fin 128) :
    layout (hexOf b) 0 Bitmap.zero x = (if x.val < 64 then b x else false) := by
  by_cases hx : x.val < 64
  · rw [if_pos hx]
    have h1 := layout_low (hexOf b) (hexOf_length b) (x.val / 4) (x.val % 4) (by omega) (by omega)
    have h2 : 4 * (x.val / 4) + x.val % 4 = x.val := by omega
    rw [h2, flag_eq _ _ x.isLt] at h1
    rw [h1, hexOf_getD b _ (by omega), hexBit_nibble b _ _ (by omega), h2, flag_eq _ _ x.isLt]
  · rw [if_neg hx]
    exact layout_high _ (hexOf_length b) x (by omega)

theorem nibble_of_bits : ∀ v : Fin 16,
    8 * (v.val / 2 ^ (3 - 0) % 2 == 1).toNat + 4 * (v.val / 2 ^ (3 - 1) % 2 == 1).toNat
      + 2 * (v.val / 2 ^ (3 - 2) % 2 == 1).toNat + (v.val / 2 ^ (3 - 3) % 2 == 1).toNat
      = v.val := by decide

theorem nibble_layout (h : Str) (hlen : h.length = 16) (hhex : ∀ c ∈ h, isHexDigit c)
    (k : Nat) (hk : k < 16) :
    upperHexDigit (nibble (layout h 0 Bitmap.zero) (4 * k)) = upperCase (h.getD k 0) := by
  have hmem : h.getD k 0 ∈ h := by
    rw [List.getD_eq_getElem _ _ (by omega)]
    exact List.getElem_mem _
  obtain ⟨val, hval⟩ :=
    Option.isSome_iff_exists.mp ((parseHexDigit_isSome _).mpr (hhex _ hmem))
  have hv : val < 16 := parseHexDigit_lt _ val hval
  have e0 := layout_low h hlen k 0 hk (by omega)
  have e1 := layout_low h hlen k 1 hk (by omega)
  have e2 := layout_low h hlen k 2 hk (by omega)
  have e3 := layout_low h hlen k 3 hk (by omega)
  have hn : nibble (layout h 0 Bitmap.zero) (4 * k) = val := by
    unfold nibble
    rw [← Nat.add_zero (4 * k), e0, Nat.add_zero, e1, e2, e3]
    unfold hexBit
    rw [hval, Option.getD_some]
    exact nibble_of_bits ⟨val, hv⟩
  rw [hn]
  exact upper_of_parse _ ⟨val, hv⟩ hval

theorem hexOf_layout (h : Str) (hlen : h.length = 16) (hhex : ∀ c ∈ h, isHexDigit c) :
    hexOf (layout h 0 Bitmap.zero) = h.map upperCase := by
  apply List.ext_getElem
  · rw [hexOf_length, List.length_map, hlen]
  · intro n h1 h2
    rw [hexOf_length] at h1
    have e1 := hexOf_getD (layout h 0 Bitmap.zero) n h1
    rw [List.getD_eq_getElem _ _ (by rw [hexOf_length]; exact h1)] at e1
    rw [e1, nibble_layout h hlen hhex n h1, List.getElem_map,
      List.getD_eq_getElem _ _ (by omega)]

/-! ## Slices -/

theorem len_append (s t : Str) : len (s ++ t) = len s + len t := by
  simp [len]

theorem len_nonneg (s : Str) : 0 ≤ len s := by
  unfold len; omega

theorem slice_mid (pre s post : Str) (p q : Int) (hp : p = len pre) (hq : q = len pre + len s) :
    slice (pre ++ (s ++ post)) p q = some s := by
  subst hp hq
  unfold slice
  have hc : 0 ≤ len pre ∧ len pre ≤ len pre + len s ∧
      len pre + len s ≤ len (pre ++ (s ++ post)) := by
    simp only [len_append]
    have := len_nonneg pre; have := len_nonneg s; have := len_nonneg post
    omega
  rw [if_pos hc]
  have h1 : (len pre).toNat = pre.length := by simp [len]
  have h2 : (len pre + len s).toNat - pre.length = s.length := by
    simp only [len]; omega
  rw [h1, h2, List.drop_left, List.take_left]

theorem sliceFrom_append (pre s : Str) (p : Int) (hp : p = len pre) :
    sliceFrom (pre ++ s) p = some s := by
  have := slice_mid pre s [] p (len (pre ++ s)) hp (len_append pre s)
  simpa [sliceFrom] using this

theorem slice_of_bounds (s : Str) (lo hi : Int) (h : 0 ≤ lo ∧ lo ≤ hi ∧ hi ≤ len s) :
    slice s lo hi = some ((s.drop lo.toNat).take (hi.toNat - lo.toNat)) := by
  unfold slice
  rw [if_pos h]

/-! ## The header of a message -/

theorem ParseMessage_of_len (w : Str) (h : 20 ≤ w.length) :
    ParseMessage w = parseBody (w.take 4) ((w.drop 4).take 16) (w.drop 20) := by
  have hl : (20 : Int) ≤ len w := by unfold len; omega
  unfold ParseMessage
  rw [if_neg (by omega)]
  have e1 : sliceTo w 4 = some (w.take 4) := by
    unfold sliceTo
    rw [slice_of_bounds w 0 4 (by omega)]
    simp
  have e2 : slice w 4 20 = some ((w.drop 4).take 16) := by
    rw [slice_of_bounds w 4 20 (by omega)]
    simp
  have e3 : sliceFrom w 20 = some (w.drop 20) := by
    unfold sliceFrom
    rw [slice_of_bounds w 20 (len w) (by omega)]
    have : (len w).toNat - (20 : Int).toNat = (w.drop 20).length := by
      simp [len]
    rw [this]
    simp
  rw [e1, e2]
  simp only
  unfold parseBody
  cases parseBitmap ((w.drop 4).take 16) with
  | ok bitmap => simp only [e3]
  | error e => rfl
  | panic => rfl

theorem ParseMessage_parts (mti hex data : Str) (hm : mti.length = 4) (hh : hex.length = 16) :
    ParseMessage (mti ++ (hex ++ data)) = parseBody mti hex data := by
  rw [ParseMessage_of_len _ (by rw [List.length_append, List.length_append, hm, hh]; omega)]
  have e1 : (mti ++ (hex ++ data)).take 4 = mti := by
    rw [← hm, List.take_left]
  have e2 : (mti ++ (hex ++ data)).drop 4 = hex ++ data := by
    rw [← hm, List.drop_left]
  have e3 : (mti ++ (hex ++ data)).drop 20 = data := by
    have : 20 = 4 + 16 := rfl
    rw [this, ← List.drop_drop, e2, ← hh, List.drop_left]
  rw [e1, e2, e3, ← hh, List.take_left]

/-! ## One iteration of the parse loop -/

theorem parseField_unflagged (b : Bitmap) (d : Str) (i p : Int) (f : Fields)
    (h : b.get? (i - 1) = some false) : parseField b d i p f = Step.next p f := by
  unfold parseField
  rw [h]

theorem parseField_unknown (b : Bitmap) (d : Str) (i p : Int) (f : Fields)
    (h : fieldDescriptors i = none) (hb : (b.get? (i - 1)).isSome) :
    parseField b d i p f = Step.next p f := by
  unfold parseField
  obtain ⟨flag, hflag⟩ := Option.isSome_iff_exists.mp hb
  rw [hflag]
  cases flag
  · rfl
  · simp only [h]

theorem parseField_cases (b : Bitmap) (d : Str) (i p : Int) (f : Fields) :
    (parseField b d i p f = Step.next p f ∧
        ¬ (b.get? (i - 1) = some true ∧ (fieldDescriptors i).isSome)) ∨
    (∃ p1 v, parseField b d i p f = Step.next p1 (f.insert i v) ∧
        b.get? (i - 1) = some true ∧ (fieldDescriptors i).isSome) ∨
    (∃ v, parseField b d i p f = Step.stop (f.insert i v) ∧
        b.get? (i - 1) = some true ∧ i = 63) ∨
    (∃ e, parseField b d i p f = Step.fail e) ∨
    parseField b d i p f = Step.panic := by
  unfold parseField
  repeat' split
  all_goals simp_all

/-! ## The parse loop -/

theorem ok_of_isOk {α : Type} (r : Result α) (h : r.isOk = true) : ∃ a, r = Result.ok a := by
  cases r with
  | ok a => exact ⟨a, rfl⟩
  | error e => cases h
  | panic => cases h

theorem get?_fieldNumber (b : Bitmap) (i : Int) (h1 : 1 ≤ i) (h2 : i ≤ 128) :
    b.get? (i - 1) = some (b.flag (i - 1).toNat) := by
  unfold Bitmap.get?
  rw [if_pos (by omega), getNat?_lt b _ (by omega)]

theorem mem_fieldNumbers (i : Int) : i ∈ fieldNumbers ↔ 1 ≤ i ∧ i ≤ 64 := by
  unfold fieldNumbers
  rw [List.mem_map]
  constructor
  · rintro ⟨n, hn, rfl⟩
    have := List.mem_range.mp hn
    omega
  · intro h
    exact ⟨(i - 1).toNat, List.mem_range.mpr (by omega), by omega⟩

/-- No field with a descriptor comes after field 63 in the order of the loop. -/
theorem fieldNumbers_after_63 :
    fieldNumbers.Pairwise (fun a c => a = 63 → fieldDescriptors c = none) := by
  decide

theorem parseFields_keys (b : Bitmap) (d : Str) : ∀ (l : List Int) (p : Int) (f f1 : Fields),
    l.Pairwise (fun a c => a = 63 → fieldDescriptors c = none) →
    parseFields b d l p f = Result.ok f1 →
    ∀ key, ((f1 key).isSome = true ↔
      ((f key).isSome = true ∨
        (key ∈ l ∧ b.get? (key - 1) = some true ∧ (fieldDescriptors key).isSome = true))) := by
  intro l
  induction l with
  | nil =>
    intro p f f1 _ h key
    rw [parseFields] at h
    cases h
    simp
  | cons i rest ih =>
    intro p f f1 hpw h key
    rw [parseFields] at h
    have hrest := (List.pairwise_cons.mp hpw).2
    have hhead := (List.pairwise_cons.mp hpw).1
    rcases parseField_cases b d i p f with
      ⟨e, hn⟩ | ⟨p1, v, e, hb, hd⟩ | ⟨v, e, hb, h63⟩ | ⟨er, e⟩ | e
    · rw [e] at h
      simp only at h
      rw [ih p f f1 hrest h key]
      constructor
      · rintro (h1 | ⟨h1, h2, h3⟩)
        · exact Or.inl h1
        · exact Or.inr ⟨List.mem_cons_of_mem i h1, h2, h3⟩
      · rintro (h1 | ⟨h1, h2, h3⟩)
        · exact Or.inl h1
        · rcases List.mem_cons.mp h1 with hk | hk
          · subst hk
            exact absurd ⟨h2, h3⟩ hn
          · exact Or.inr ⟨hk, h2, h3⟩
    · rw [e] at h
      simp only at h
      rw [ih p1 (f.insert i v) f1 hrest h key]
      unfold Fields.insert
      by_cases hk : key = i
      · subst hk
        simp [hb, hd]
      · simp [hk]
    · rw [e] at h
      simp only [Result.ok.injEq] at h
      subst h
      subst h63
      unfold Fields.insert
      by_cases hk : key = 63
      · subst hk
        have h63 : (fieldDescriptors 63).isSome = true := by decide
        have hb1 : b.get? 62 = some true := hb
        simp [hb1, h63]
      · simp only [hk, if_false, List.mem_cons, false_or]
        constructor
        · exact fun h1 => Or.inl h1
        · rintro (h1 | ⟨h1, _, h3⟩)
          · exact h1
          · rw [hhead key h1 rfl] at h3
            cases h3
    · rw [e] at h
      cases h
    · rw [e] at h
      cases h

theorem parseFields_congr (b b1 : Bitmap) (d : Str) : ∀ (l : List Int) (p : Int) (f : Fields),
    (∀ i ∈ l, ∀ q g, parseField b1 d i q g = parseField b d i q g) →
    parseFields b1 d l p f = parseFields b d l p f := by
  intro l
  induction l with
  | nil => intro p f _; rw [parseFields, parseFields]
  | cons i rest ih =>
    intro p f h
    rw [parseFields, parseFields, h i (List.mem_cons_self i rest)]
    cases parseField b d i p f with
    | next p1 f1 => exact ih p1 f1 (fun k hk => h k (List.mem_cons_of_mem i hk))
    | stop f1 => rfl
    | fail e => rfl
    | panic => rfl

theorem parseField_setFlag (b b1 : Bitmap) (d : Str) (k : Int)
    (hk : fieldDescriptors k = none)
    (hset : ∀ x : Fin 128, b1 x = if (x.val : Int) = k - 1 then true else b x)
    (i : Int) (hi1 : 1 ≤ i) (hi2 : i ≤ 64) (q : Int) (g : Fields) :
    parseField b1 d i q g = parseField b d i q g := by
  by_cases hik : i = k
  · subst hik
    rw [parseField_unknown b1 d i q g hk (by rw [get?_fieldNumber b1 i hi1 (by omega)]; rfl),
      parseField_unknown b d i q g hk (by rw [get?_fieldNumber b i hi1 (by omega)]; rfl)]
  · have : b1.get? (i - 1) = b.get? (i - 1) := by
      rw [get?_fieldNumber b1 i hi1 (by omega), get?_fieldNumber b i hi1 (by omega),
        flag_eq b1 _ (by omega), flag_eq b _ (by omega), hset]
      rw [if_neg]
      simp only
      omega
    unfold parseField
    rw [this]

theorem parseFields_skip (b : Bitmap) (d : Str) (l2 : List Int) : ∀ (l : List Int) (p : Int)
    (f : Fields), (∀ i ∈ l, b.get? (i - 1) = some false) →
    parseFields b d (l ++ l2) p f = parseFields b d l2 p f := by
  intro l
  induction l with
  | nil => intro p f _; rfl
  | cons i rest ih =>
    intro p f h
    rw [List.cons_append, parseFields,
      parseField_unflagged b d i p f (h i (List.mem_cons_self i rest))]
    exact ih p f (fun k hk => h k (List.mem_cons_of_mem i hk))

theorem parseField_63 (b : Bitmap) (pre r : Str) (p : Int) (f : Fields)
    (hb : b.get? 62 = some true) (hp : p = len pre) :
    parseField b (pre ++ r) 63 p f = Step.stop (f.insert 63 r) := by
  have hb1 : b.get? (63 - 1) = some true := hb
  have hd : fieldDescriptors 63 = some ⟨11, true, ascii "an"⟩ := by decide
  unfold parseField
  rw [hb1]
  simp only [hd, if_true]
  rw [sliceFrom_append pre r p hp]

theorem fieldNumbers_split : fieldNumbers = fieldNumbersBelow63 ++ [63, 64] := by decide

theorem parseFields_only63 (b : Bitmap) (r : Str)
    (hlow : ∀ i ∈ fieldNumbersBelow63, b.get? (i - 1) = some false)
    (hb : b.get? 62 = some true) :
    parseFields b r fieldNumbers 0 Fields.empty = Result.ok (Fields.empty.insert 63 r) := by
  rw [fieldNumbers_split, parseFields_skip b r [63, 64] fieldNumbersBelow63 0 Fields.empty hlow,
    parseFields]
  have := parseField_63 b [] r 0 Fields.empty hb rfl
  rw [List.nil_append] at this
  rw [this]

theorem parseBody_only63 (mti hex r : Str) (hlen : hex.length = 16)
    (hhex : ∀ c ∈ hex, isHexDigit c)
    (hlow : ∀ i ∈ fieldNumbersBelow63, (layout hex 0 Bitmap.zero).get? (i - 1) = some false)
    (hb : (layout hex 0 Bitmap.zero).get? 62 = some true) :
    parseBody mti hex r =
      Result.ok ⟨mti, layout hex 0 Bitmap.zero, Fields.empty.insert 63 r⟩ := by
  unfold parseBody
  rw [parseBitmap_ok hex hlen hhex]
  simp only
  rw [parseFields_only63 _ r hlow hb]

theorem parseBody_setFlag (mti hex hex1 data : Str) (b b1 : Bitmap) (k : Int)
    (hk : fieldDescriptors k = none)
    (hb : parseBitmap hex = Result.ok b) (hb1 : parseBitmap hex1 = Result.ok b1)
    (hset : ∀ x : Fin 128, b1 x = if (x.val : Int) = k - 1 then true else b x) :
    parseBody mti hex1 data =
      match parseBody mti hex data with
      | Result.ok m => Result.ok ⟨m.MTI, b1, m.Fields⟩
      | Result.error e => Result.error e
      | Result.panic => Result.panic := by
  unfold parseBody
  rw [hb, hb1]
  simp only
  rw [parseFields_congr b b1 data fieldNumbers 0 Fields.empty
    (fun i hi q g => parseField_setFlag b b1 data k hk hset i
      ((mem_fieldNumbers i).mp hi).1 ((mem_fieldNumbers i).mp hi).2 q g)]
  cases parseFields b data fieldNumbers 0 Fields.empty <;> rfl

theorem parseBody_bitmap (mti hex data : Str) (m : Message)
    (h : parseBody mti hex data = Result.ok m) : parseBitmap hex = Result.ok m.Bitmap := by
  unfold parseBody at h
  cases hb : parseBitmap hex with
  | error e => rw [hb] at h; cases h
  | panic => rw [hb] at h; cases h
  | ok b =>
    rw [hb] at h
    simp only at h
    cases hf : parseFields b data fieldNumbers 0 Fields.empty with
    | error e => rw [hf] at h; cases h
    | panic => rw [hf] at h; cases h
    | ok f =>
      rw [hf] at h
      simp only [Result.ok.injEq] at h
      subst h
      rfl

theorem parseBody_no_unknown (mti hex data : Str) (m : Message) (k : Int)
    (hk : fieldDescriptors k = none)
    (h : parseBody mti hex data = Result.ok m) : m.Fields k = none := by
  unfold parseBody at h
  cases hb : parseBitmap hex with
  | error e => rw [hb] at h; cases h
  | panic => rw [hb] at h; cases h
  | ok b =>
    rw [hb] at h
    simp only at h
    cases hf : parseFields b data fieldNumbers 0 Fields.empty with
    | error e => rw [hf] at h; cases h
    | panic => rw [hf] at h; cases h
    | ok f =>
      rw [hf] at h
      simp only [Result.ok.injEq] at h
      subst h
      have key := parseFields_keys b data fieldNumbers 0 Fields.empty f
        fieldNumbers_after_63 hf k
      simp only
      cases hfk : f k with
      | none => rfl
      | some s =>
        rw [hfk] at key
        rcases key.mp rfl with h1 | ⟨_, _, h3⟩
        · cases h1
        · rw [hk] at h3
          cases h3

theorem parseBitmap_length (hex : Str) (b : Bitmap) (h : parseBitmap hex = Result.ok b) :
    hex.length = 16 := by
  by_contra hcon
  unfold parseBitmap at h
  rw [if_pos (by unfold len; omega)] at h
  cases h

/-! ## Parsing the documented wire format -/

theorem Atoi_twoDigits : ∀ n : Fin 100, Atoi (twoDigits n.val) = some (n.val : Int) := by
  decide

theorem sprintf02d_twoDigits : ∀ n : Fin 100, sprintf02d n.val = twoDigits n.val := by
  decide

theorem parseField_fixed (b : Bitmap) (pre s post : Str) (i p : Int) (f : Fields)
    (desc : FieldDescriptor) (hb : b.get? (i - 1) = some true)
    (hd : fieldDescriptors i = some desc) (hv : desc.Variable = false)
    (hl : (if i = 43 then 40 else desc.Length) = len s) (hp : p = len pre) :
    parseField b (pre ++ (s ++ post)) i p f = Step.next (p + len s) (f.insert i s) := by
  have hlen : ¬ (p + len s > len (pre ++ (s ++ post))) := by
    rw [len_append, len_append, hp]
    have := len_nonneg post
    omega
  unfold parseField
  rw [hb]
  simp only [hd, hv]
  by_cases h43 : i = 43
  · rw [if_pos h43] at hl
    simp only [Bool.false_eq_true, if_false, if_pos h43]
    rw [hl, if_neg hlen, slice_mid pre s post p (p + len s) hp (by rw [hp])]
  · rw [if_neg h43] at hl
    simp only [Bool.false_eq_true, if_false, if_neg h43]
    rw [hl, if_neg hlen, slice_mid pre s post p (p + len s) hp (by rw [hp])]

theorem parseField_2 (b : Bitmap) (pre s post : Str) (p : Int) (f : Fields)
    (hb : b.get? 1 = some true) (hs : s.length ≤ 99) (hp : p = len pre) :
    parseField b (pre ++ ((twoDigits s.length ++ s) ++ post)) 2 p f =
      Step.next (p + 2 + len s) (f.insert 2 s) := by
  have hb1 : b.get? (2 - 1) = some true := hb
  have hd : fieldDescriptors 2 = some ⟨19, true, ascii "n"⟩ := by decide
  have hty : ¬ (ascii "n" = ascii "an") := by decide
  have hat : Atoi (twoDigits s.length) = some (len s) :=
    Atoi_twoDigits ⟨s.length, by omega⟩
  have h2 : len (twoDigits s.length) = 2 := rfl
  have hlen1 : ¬ (p + 2 > len (pre ++ ((twoDigits s.length ++ s) ++ post))) := by
    rw [len_append, len_append, len_append, h2, hp]
    have := len_nonneg post; have := len_nonneg s
    omega
  have hlen2 : ¬ (p + 2 + len s > len (pre ++ ((twoDigits s.length ++ s) ++ post))) := by
    rw [len_append, len_append, len_append, h2, hp]
    have := len_nonneg post
    omega
  have hneg : ¬ (len s < 0) := by have := len_nonneg s; omega
  have sl1 : slice (pre ++ ((twoDigits s.length ++ s) ++ post)) p (p + 2)
      = some (twoDigits s.length) := by
    rw [List.append_assoc]
    exact slice_mid pre (twoDigits s.length) (s ++ post) p (p + 2) hp (by rw [hp, h2])
  have sl2 : slice (pre ++ ((twoDigits s.length ++ s) ++ post)) (p + 2) (p + 2 + len s)
      = some s := by
    have e : pre ++ ((twoDigits s.length ++ s) ++ post)
        = (pre ++ twoDigits s.length) ++ (s ++ post) := by
      simp only [List.append_assoc]
    rw [e]
    exact slice_mid (pre ++ twoDigits s.length) s post (p + 2) (p + 2 + len s)
      (by rw [len_append, h2, hp]) (by rw [len_append, h2, hp])
  unfold parseField
  rw [hb1]
  simp only [hd, if_true]
  rw [if_neg (by decide), if_neg hlen1, sl1]
  simp only [hat]
  rw [if_neg hneg, if_neg hlen2, sl2]
  simp only [if_neg hty]

theorem flagsOf_get? (v : Fields) (i : Int) (h1 : 1 ≤ i) (h2 : i ≤ 128) :
    (flagsOf v).get? (i - 1) = some (v i).isSome := by
  rw [get?_fieldNumber _ i h1 h2, flag_eq _ _ (by omega)]
  unfold flagsOf
  simp only
  have : (((i - 1).toNat : Nat) : Int) + 1 = i := by omega
  rw [this]

theorem wireField_of_ne (i : Int) (s : Str) (h : i ≠ 2) : wireField i s = s := by
  unfold wireField
  rw [if_neg h]

theorem parseField_wire (v : Fields) (pre post : Str) (i p : Int) (f : Fields) (s : Str)
    (h1 : 1 ≤ i) (h2 : i ≤ 64) (hv : v i = some s) (hok : wireValueOk i s)
    (hp : p = len pre) :
    parseField (flagsOf v) (pre ++ (wireField i s ++ post)) i p f =
      Step.next (p + len (wireField i s)) (f.insert i s) := by
  have hb : (flagsOf v).get? (i - 1) = some true := by
    rw [flagsOf_get? v i h1 (by omega), hv]
    rfl
  unfold wireValueOk at hok
  rcases hok with ⟨hi, hs⟩ | ⟨hi, hs⟩ | ⟨hi, hs⟩ | ⟨hi, hs⟩ | ⟨hi, hs⟩ | ⟨hi, hs⟩ |
    ⟨hi, hs⟩ | ⟨hi, hs⟩
  · subst hi
    have e : wireField 2 s = twoDigits s.length ++ s := rfl
    rw [e, len_append]
    have h2 : len (twoDigits s.length) = 2 := rfl
    rw [h2, ← Int.add_assoc]
    exact parseField_2 (flagsOf v) pre s post p f hb hs hp
  all_goals
    subst hi
    rw [wireField_of_ne _ s (by decide)]
    refine parseField_fixed (flagsOf v) pre s post _ p f _ hb rfl rfl ?_ hp
    simp only [len, hs]
    decide

theorem parseFields_wire (v : Fields) (hv : ∀ i s, v i = some s → wireValueOk i s) :
    ∀ (l : List Int) (pre : Str) (p : Int) (f : Fields),
    (∀ i ∈ l, 1 ≤ i ∧ i ≤ 64) → p = len pre →
    parseFields (flagsOf v) (pre ++ wireData v l) l p f = Result.ok (mergeFields l v f) := by
  intro l
  induction l with
  | nil =>
    intro pre p f _ _
    rw [parseFields]
    congr 1
  | cons i rest ih =>
    intro pre p f hl hp
    have hi := hl i (List.mem_cons_self i rest)
    have hrest : ∀ k ∈ rest, 1 ≤ k ∧ k ≤ 64 := fun k hk => hl k (List.mem_cons_of_mem i hk)
    rw [parseFields]
    cases hvi : v i with
    | none =>
      have hb : (flagsOf v).get? (i - 1) = some false := by
        rw [flagsOf_get? v i hi.1 (by omega), hvi]
        rfl
      rw [parseField_unflagged _ _ i p f hb]
      simp only
      have e : wireData v (i :: rest) = wireData v rest := by
        simp only [wireData, hvi, List.nil_append]
      rw [e, ih pre p f hrest hp]
      congr 1
      funext key
      unfold mergeFields
      by_cases hk : key = i
      · subst hk
        simp [hvi]
      · simp [hk]
    | some s =>
      have e : wireData v (i :: rest) = wireField i s ++ wireData v rest := by
        simp only [wireData, hvi]
      rw [e, parseField_wire v pre (wireData v rest) i p f s hi.1 hi.2 hvi (hv i s hvi) hp]
      simp only
      have e2 : pre ++ (wireField i s ++ wireData v rest)
          = (pre ++ wireField i s) ++ wireData v rest := by
        rw [List.append_assoc]
      rw [e2, ih (pre ++ wireField i s) _ (f.insert i s) hrest (by rw [len_append, hp])]
      congr 1
      funext key
      unfold mergeFields Fields.insert
      by_cases hk : key = i
      · subst hk
        simp [hvi]
      · simp [hk]

theorem flagsOf_high (v : Fields) (hv : ∀ i s, v i = some s → wireValueOk i s) (x : Fin 128)
    (hx : ¬ x.val < 64) : flagsOf v x = false := by
  unfold flagsOf
  cases h : v ((x.val : Int) + 1) with
  | none => rfl
  | some s =>
    have := hv _ s h
    unfold wireValueOk at this
    omega

theorem mergeFields_all (v : Fields) (hv : ∀ i s, v i = some s → wireValueOk i s) :
    mergeFields fieldNumbers v Fields.empty = v := by
  funext key
  unfold mergeFields
  by_cases hk : key ∈ fieldNumbers
  · rw [if_pos hk]
    cases v key <;> rfl
  · rw [if_neg hk]
    cases h : v key with
    | none => rfl
    | some s =>
      exfalso
      apply hk
      rw [mem_fieldNumbers]
      have := hv _ s h
      unfold wireValueOk at this
      omega

theorem parseBody_wire (mti : Str) (v : Fields)
    (hv : ∀ i s, v i = some s → wireValueOk i s) :
    parseBody mti (hexOf (flagsOf v)) (wireData v fieldNumbers) =
      Result.ok ⟨mti, flagsOf v, v⟩ := by
  have hb : layout (hexOf (flagsOf v)) 0 Bitmap.zero = flagsOf v := by
    funext x
    rw [layout_hexOf]
    by_cases hx : x.val < 64
    · rw [if_pos hx]
    · rw [if_neg hx, flagsOf_high v hv x hx]
  unfold parseBody
  rw [parseBitmap_ok _ (hexOf_length _) (hexOf_isHex _), hb]
  simp only
  have := parseFields_wire v hv fieldNumbers [] 0 Fields.empty
    (fun i hi => (mem_fieldNumbers i).mp hi) rfl
  rw [List.nil_append] at this
  rw [this, mergeFields_all v hv]

theorem wireValueOk_single (k : Int) (x : Str) (hk : wireValueOk k x) :
    ∀ i s, (Fields.empty.insert k x) i = some s → wireValueOk i s := by
  intro i s h
  unfold Fields.insert at h
  split at h
  · rename_i hi
    simp only [Option.some.injEq] at h
    rw [hi, ← h]
    exact hk
  · cases h

/-! ## The generator: closed form -/

theorem get?_index (b : Bitmap) (i : Int) (h1 : 0 ≤ i) (h2 : i < 128) :
    b.get? i = some (b.flag i.toNat) := by
  unfold Bitmap.get?
  rw [if_pos h1, getNat?_lt b _ (by omega)]

theorem generateFields_eq (m : Message) : ∀ (l : List Int) (acc : Str),
    (∀ i ∈ l, 1 ≤ i ∧ i ≤ 64) →
    generateFields m l acc = Result.ok (acc ++ emitted m l) := by
  intro l
  induction l with
  | nil =>
    intro acc _
    rw [generateFields, emitted, List.append_nil]
  | cons i rest ih =>
    intro acc h
    have hi := h i (List.mem_cons_self i rest)
    have hrest : ∀ k ∈ rest, 1 ≤ k ∧ k ≤ 64 := fun k hk => h k (List.mem_cons_of_mem i hk)
    rw [generateFields, get?_index m.Bitmap i (by omega) (by omega), emitted]
    unfold emittedField
    cases m.Bitmap.flag i.toNat with
    | false =>
      simp only [Bool.false_eq_true, if_false, List.nil_append]
      exact ih acc hrest
    | true =>
      simp only [if_true]
      cases ((fieldDescriptors i).getD FieldDescriptor.zero).Variable with
      | false =>
        simp only [Bool.false_eq_true, if_false]
        rw [ih _ hrest, List.append_assoc]
      | true =>
        simp only [if_true]
        rw [ih _ hrest, List.append_assoc]

/-- What `GenerateMessage` returns, for every message: it never fails, and after the MTI
and the bitmap it emits, for `i = 1..64`, the field stored under key `i` when flag number
`i` (the flag of field `i + 1`) is set. -/
theorem GenerateMessage_eq (m : Message) :
    GenerateMessage m = Result.ok (m.MTI ++ hexOf m.Bitmap ++ emitted m fieldNumbers) := by
  unfold GenerateMessage
  rw [generateBitmap_eq]
  simp only
  exact generateFields_eq m fieldNumbers _ (fun i hi => (mem_fieldNumbers i).mp hi)

theorem hexOf_congr (b1 b2 : Bitmap) (h : ∀ k, k < 64 → b1.flag k = b2.flag k) :
    hexOf b1 = hexOf b2 := by
  unfold hexOf
  apply List.map_congr_left
  intro i hi
  have hb : i + 3 < 64 := by
    revert i
    decide
  unfold nibble
  rw [h i (by omega), h (i + 1) (by omega), h (i + 2) (by omega), h (i + 3) (by omega)]

theorem emitted_congr (m1 m2 : Message) (hf : m1.Fields = m2.Fields) (l : List Int)
    (hl : ∀ i ∈ l, 1 ≤ i ∧ i ≤ 64)
    (h : ∀ k, 1 ≤ k → k ≤ 64 → m1.Bitmap.flag k = m2.Bitmap.flag k) :
    emitted m1 l = emitted m2 l := by
  induction l with
  | nil => rfl
  | cons i rest ih =>
    have hi := hl i (List.mem_cons_self i rest)
    rw [emitted, emitted, ih (fun k hk => hl k (List.mem_cons_of_mem i hk))]
    congr 1
    unfold emittedField
    rw [h i.toNat (by omega) (by omega), hf]

/-- The flags `GenerateMessage` reads are those at indices 0..64: two messages with the
same MTI, the same `Fields` and the same flags at these indices generate the same
string. -/
theorem GenerateMessage_congr (m1 m2 : Message) (hm : m1.MTI = m2.MTI)
    (hf : m1.Fields = m2.Fields) (h : ∀ k, k ≤ 64 → m1.Bitmap.flag k = m2.Bitmap.flag k) :
    GenerateMessage m1 = GenerateMessage m2 := by
  rw [GenerateMessage_eq, GenerateMessage_eq, hm,
    hexOf_congr m1.Bitmap m2.Bitmap (fun k hk => h k (by omega)),
    emitted_congr m1 m2 hf fieldNumbers (fun i hi => (mem_fieldNumbers i).mp hi)
      (fun k _ hk => h k hk)]

/-! ## PadRight -/

theorem repeatPad_length (pad : Str) (n : Nat) : (repeatPad pad n).length = n * pad.length := by
  induction n with
  | zero => simp [repeatPad]
  | succ k ih => simp [repeatPad, ih, Nat.succ_mul, Nat.add_comm]

theorem repeatPad_add (pad : Str) (m n : Nat) :
    repeatPad pad (m + n) = repeatPad pad m ++ repeatPad pad n := by
  induction m with
  | zero => simp [repeatPad]
  | succ k ih =>
    have : k + 1 + n = (k + n) + 1 := by omega
    rw [this, repeatPad, repeatPad, ih, List.append_assoc]

theorem repeatPad_single (c : Byte) (n : Nat) : repeatPad [c] n = List.replicate n c := by
  induction n with
  | zero => rfl
  | succ k ih => rw [repeatPad, ih]; rfl

theorem take_stream_le (str pad : Str) (L m n : Nat) (hmn : m ≤ n)
    (hm : L ≤ str.length + m * pad.length) :
    (str ++ repeatPad pad n).take L = (str ++ repeatPad pad m).take L := by
  obtain ⟨k, rfl⟩ := Nat.exists_eq_add_of_le hmn
  rw [repeatPad_add, ← List.append_assoc]
  apply List.take_append_of_le_length
  rw [List.length_append, repeatPad_length]
  exact hm

theorem take_stream_indep (str pad : Str) (L m n : Nat)
    (hm : L ≤ str.length + m * pad.length) (hn : L ≤ str.length + n * pad.length) :
    (str ++ repeatPad pad n).take L = (str ++ repeatPad pad m).take L := by
  rcases Nat.le_total m n with h | h
  · exact take_stream_le str pad L m n h hm
  · exact (take_stream_le str pad L n m h hn).symm

theorem slice_zero (s : Str) (hi : Int) (h0 : 0 ≤ hi) (h1 : hi ≤ len s) :
    slice s 0 hi = some (s.take hi.toNat) := by
  rw [slice_of_bounds s 0 hi ⟨le_refl 0, h0, h1⟩]
  simp

theorem PadRight_run (pad : Str) (length : Int) (hpad : pad ≠ []) (hlen : 0 ≤ length) :
    ∀ (fuel : Nat) (str : Str), length.toNat - str.length < fuel →
      PadRight fuel str pad length =
        some (Result.ok ((str ++ repeatPad pad length.toNat).take length.toNat)) := by
  have hp : 1 ≤ pad.length := by
    cases pad with
    | nil => exact absurd rfl hpad
    | cons c t => simp
  have hbig : ∀ s : Str, length.toNat ≤ s.length + length.toNat * pad.length := by
    intro s
    have : length.toNat * 1 ≤ length.toNat * pad.length := Nat.mul_le_mul_left _ hp
    omega
  intro fuel
  induction fuel with
  | zero =>
    intro str h
    omega
  | succ k ih =>
    intro str h
    rw [PadRight]
    by_cases hc : len (str ++ pad) ≥ length
    · rw [if_pos hc, slice_zero _ length hlen hc]
      simp only
      have h1 : length.toNat ≤ str.length + 1 * pad.length := by
        simp only [len, List.length_append] at hc
        omega
      rw [take_stream_indep str pad length.toNat 1 length.toNat h1 (hbig str)]
      simp [repeatPad]
    · rw [if_neg hc]
      have hlt : length.toNat - (str ++ pad).length < k := by
        simp only [len, List.length_append] at hc
        rw [List.length_append]
        omega
      rw [ih (str ++ pad) hlt]
      have e : str ++ pad ++ repeatPad pad length.toNat
          = str ++ repeatPad pad (length.toNat + 1) := by
        have : length.toNat + 1 = 1 + length.toNat := by omega
        rw [this, repeatPad_add]
        simp [repeatPad]
      rw [e, take_stream_indep str pad length.toNat length.toNat (length.toNat + 1) (hbig str)
        (by have := hbig str; rw [Nat.succ_mul]; omega)]

theorem PadRight_unique (pad : Str) (length : Int) (hpad : pad ≠ []) (hlen : 0 ≤ length)
    (fuel : Nat) (str : Str) (r : Result Str) (h : PadRight fuel str pad length = some r) :
    r = Result.ok ((str ++ repeatPad pad length.toNat).take length.toNat) := by
  have hp : 1 ≤ pad.length := by
    cases pad with
    | nil => exact absurd rfl hpad
    | cons c t => simp
  induction fuel generalizing str with
  | zero => rw [PadRight] at h; cases h
  | succ k ih =>
    have hrun := PadRight_run pad length hpad hlen
    rw [PadRight] at h
    by_cases hc : len (str ++ pad) ≥ length
    · have h2 := hrun (length.toNat + 1) str (by omega)
      rw [PadRight, if_pos hc] at h2
      rw [if_pos hc, h2] at h
      simp only [Option.some.injEq] at h
      exact h.symm
    · rw [if_neg hc] at h
      have h3 := ih (str ++ pad) h
      rw [h3]
      have h4 : length.toNat - (str ++ pad).length < length.toNat + 1 := by omega
      have h5 := hrun (length.toNat + 1) (str ++ pad) h4
      have h6 : length.toNat - str.length < length.toNat + 2 := by omega
      have h7 := hrun (length.toNat + 2) str h6
      rw [PadRight, if_neg hc, h5] at h7
      simp only [Option.some.injEq] at h7
      exact h7

/-! ## Slices, the registry and one iteration, in closed form -/

theorem slice_some_iff (d : Str) (lo hi : Int) (v : Str) :
    slice d lo hi = some v ↔
      (0 ≤ lo ∧ lo ≤ hi ∧ hi ≤ len d) ∧ v = (d.drop lo.toNat).take (hi.toNat - lo.toNat) := by
  unfold slice
  by_cases h : 0 ≤ lo ∧ lo ≤ hi ∧ hi ≤ len d
  · rw [if_pos h]
    simp only [Option.some.injEq, h, and_self, true_and]
    exact eq_comm
  · rw [if_neg h]
    simp [h]

theorem slice_length (d : Str) (lo hi : Int) (v : Str) (h : slice d lo hi = some v) :
    len v = hi - lo := by
  obtain ⟨⟨h0, h1, h2⟩, rfl⟩ := (slice_some_iff d lo hi v).mp h
  unfold len at *
  rw [List.length_take, List.length_drop]
  omega

theorem slice_append_left (d s : Str) (lo hi : Int) (v : Str) (h : slice d lo hi = some v) :
    slice (d ++ s) lo hi = some v := by
  obtain ⟨⟨h0, h1, h2⟩, rfl⟩ := (slice_some_iff d lo hi _).mp h
  rw [slice_some_iff]
  refine ⟨⟨h0, h1, by rw [len_append]; have := len_nonneg s; omega⟩, ?_⟩
  have hl : lo.toNat ≤ d.length := by unfold len at h2; omega
  rw [List.drop_append_of_le_length hl]
  symm
  apply List.take_append_of_le_length
  rw [List.length_drop]
  unfold len at h2
  omega

theorem fieldDescriptors_cases (i : Int) (desc : FieldDescriptor)
    (h : fieldDescriptors i = some desc) :
    (i = 2 ∧ desc = ⟨19, true, ascii "n"⟩) ∨ (i = 63 ∧ desc = ⟨11, true, ascii "an"⟩) ∨
    (desc.Variable = false ∧ 0 ≤ desc.Length ∧ (i = 43 → desc.Length = 40) ∧
      i ≠ 2 ∧ i ≠ 63 ∧ 1 ≤ i ∧ i ≤ 64) := by
  unfold fieldDescriptors at h
  repeat' split at h
  all_goals first
    | (cases h; done)
    | (cases h; subst_vars; decide)

theorem parseField_fixed_eq (b : Bitmap) (d : Str) (i p : Int) (f : Fields)
    (desc : FieldDescriptor) (hb : b.get? (i - 1) = some true)
    (hd : fieldDescriptors i = some desc) (hv : desc.Variable = false)
    (h43 : i = 43 → desc.Length = 40) :
    parseField b d i p f =
      if p + desc.Length > len d then Step.fail (Err.fixedOutOfRange i)
      else
        match slice d p (p + desc.Length) with
        | none => Step.panic
        | some v => Step.next (p + desc.Length) (f.insert i v) := by
  unfold parseField
  rw [hb]
  simp only [hd, hv, Bool.false_eq_true, if_false]
  by_cases h : i = 43
  · rw [if_pos h, h43 h]
  · rw [if_neg h]

theorem parseField_2_eq (b : Bitmap) (d : Str) (p : Int) (f : Fields)
    (hb : b.get? 1 = some true) :
    parseField b d 2 p f =
      if p + 2 > len d then Step.fail (Err.lengthPfxOutOfRange 2)
      else
        match slice d p (p + 2) with
        | none => Step.panic
        | some pfx =>
          match Atoi pfx with
          | none => Step.fail (Err.invalidLengthPfx 2)
          | some n =>
            if n < 0 then Step.fail (Err.invalidLengthPfx 2)
            else if p + 2 + n > len d then Step.fail (Err.dataOutOfRange 2)
            else
              match slice d (p + 2) (p + 2 + n) with
              | none => Step.panic
              | some v => Step.next (p + 2 + n) (f.insert 2 v) := by
  have hb1 : b.get? (2 - 1) = some true := hb
  have hd : fieldDescriptors 2 = some ⟨19, true, ascii "n"⟩ := by decide
  have hty : ¬ (ascii "n" = ascii "an") := by decide
  unfold parseField
  rw [hb1]
  simp only [hd, if_true, if_neg hty]
  rw [if_neg (by decide)]

theorem parseField_63_eq (b : Bitmap) (d : Str) (p : Int) (f : Fields)
    (hb : b.get? 62 = some true) :
    parseField b d 63 p f =
      match sliceFrom d p with
      | none => Step.panic
      | some v => Step.stop (f.insert 63 v) := by
  have hb1 : b.get? (63 - 1) = some true := hb
  have hd : fieldDescriptors 63 = some ⟨11, true, ascii "an"⟩ := by decide
  unfold parseField
  rw [hb1]
  simp only [hd, if_true]

theorem get?_isSome (b : Bitmap) (i : Int) (h1 : 1 ≤ i) (h2 : i ≤ 64) :
    b.get? (i - 1) = some true ∨ b.get? (i - 1) = some false := by
  rw [get?_fieldNumber b i h1 (by omega)]
  cases b.flag (i - 1).toNat
  · exact Or.inr rfl
  · exact Or.inl rfl

/-! ## One iteration, inverted -/

theorem sliceFrom_of_bounds (d : Str) (p : Int) (h0 : 0 ≤ p) (h1 : p ≤ len d) :
    sliceFrom d p = some (d.drop p.toNat) := by
  unfold sliceFrom
  rw [slice_of_bounds d p (len d) ⟨h0, h1, le_refl _⟩]
  congr 1
  apply List.take_of_length_le
  rw [List.length_drop]
  unfold len
  omega

theorem parseField_next_inv (b : Bitmap) (d : Str) (i p : Int) (f : Fields) (p1 : Int)
    (f1 : Fields) (hi1 : 1 ≤ i) (hi2 : i ≤ 64) (hp : 0 ≤ p)
    (h : parseField b d i p f = Step.next p1 f1) :
    (p1 = p ∧ f1 = f ∧ ¬ (b.get? (i - 1) = some true ∧ (fieldDescriptors i).isSome = true)) ∨
    (b.get? (i - 1) = some true ∧ ∃ desc, fieldDescriptors i = some desc ∧
      desc.Variable = false ∧ i ≠ 2 ∧ i ≠ 63 ∧ 0 ≤ desc.Length ∧ p1 = p + desc.Length ∧
      p1 ≤ len d ∧ f1 = f.insert i ((d.drop p.toNat).take desc.Length.toNat)) ∨
    (b.get? (i - 1) = some true ∧ i = 2 ∧ ∃ n, 0 ≤ n ∧ p + 2 ≤ len d ∧
      Atoi ((d.drop p.toNat).take 2) = some n ∧ p1 = p + 2 + n ∧ p1 ≤ len d ∧
      f1 = f.insert 2 ((d.drop (p + 2).toNat).take n.toNat)) := by
  rcases get?_isSome b i hi1 hi2 with hb | hb
  · cases hd : fieldDescriptors i with
    | none =>
      rw [parseField_unknown b d i p f hd (by rw [hb]; rfl)] at h
      simp only [Step.next.injEq] at h
      exact Or.inl ⟨h.1.symm, h.2.symm, by simp [hd]⟩
    | some desc =>
      rcases fieldDescriptors_cases i desc hd with ⟨h2, _⟩ | ⟨h63, _⟩ | ⟨hv, hl, h43, hn2, hn63, _, _⟩
      · subst h2
        rw [parseField_2_eq b d p f hb] at h
        right; right
        refine ⟨hb, rfl, ?_⟩
        by_cases c1 : p + 2 > len d
        · rw [if_pos c1] at h; cases h
        · rw [if_neg c1, slice_of_bounds d p (p + 2) (by omega)] at h
          simp only at h
          have e2 : (p + 2).toNat - p.toNat = 2 := by omega
          rw [e2] at h
          cases hat : Atoi ((d.drop p.toNat).take 2) with
          | none => rw [hat] at h; cases h
          | some n =>
            rw [hat] at h
            simp only at h
            by_cases c2 : n < 0
            · rw [if_pos c2] at h; cases h
            · rw [if_neg c2] at h
              by_cases c3 : p + 2 + n > len d
              · rw [if_pos c3] at h; cases h
              · rw [if_neg c3, slice_of_bounds d (p + 2) (p + 2 + n) (by omega)] at h
                simp only [Step.next.injEq] at h
                have e3 : (p + 2 + n).toNat - (p + 2).toNat = n.toNat := by omega
                rw [e3] at h
                exact ⟨n, by omega, by omega, rfl, h.1.symm, by omega, h.2.symm⟩
      · subst h63
        rw [parseField_63_eq b d p f hb] at h
        cases hs : sliceFrom d p with
        | none => rw [hs] at h; cases h
        | some v => rw [hs] at h; cases h
      · rw [parseField_fixed_eq b d i p f desc hb hd hv h43] at h
        right; left
        refine ⟨hb, desc, rfl, hv, hn2, hn63, hl, ?_⟩
        by_cases c1 : p + desc.Length > len d
        · rw [if_pos c1] at h; cases h
        · rw [if_neg c1, slice_of_bounds d p (p + desc.Length) (by omega)] at h
          simp only [Step.next.injEq] at h
          have e3 : (p + desc.Length).toNat - p.toNat = desc.Length.toNat := by omega
          rw [e3] at h
          exact ⟨h.1.symm, by omega, h.2.symm⟩
  · rw [parseField_unflagged b d i p f hb] at h
    simp only [Step.next.injEq] at h
    exact Or.inl ⟨h.1.symm, h.2.symm, by simp [hb]⟩

theorem parseField_stop_inv (b : Bitmap) (d : Str) (i p : Int) (f : Fields) (f1 : Fields)
    (hp0 : 0 ≤ p) (hp1 : p ≤ len d) (h : parseField b d i p f = Step.stop f1) :
    b.get? (i - 1) = some true ∧ i = 63 ∧ f1 = f.insert 63 (d.drop p.toNat) := by
  rcases parseField_cases b d i p f with
    ⟨e, _⟩ | ⟨p1, v, e, _, _⟩ | ⟨v, e, hb, h63⟩ | ⟨er, e⟩ | e
  · rw [e] at h; cases h
  · rw [e] at h; cases h
  · subst h63
    have e2 := parseField_63_eq b d p f hb
    rw [sliceFrom_of_bounds d p hp0 hp1] at e2
    rw [e2] at h
    simp only [Step.stop.injEq] at h
    exact ⟨hb, rfl, h.symm⟩
  · rw [e] at h; cases h
  · rw [e] at h; cases h

theorem parseField_ne_panic (b : Bitmap) (d : Str) (i p : Int) (f : Fields)
    (hi1 : 1 ≤ i) (hi2 : i ≤ 64) (hp0 : 0 ≤ p) (hp1 : p ≤ len d) :
    parseField b d i p f ≠ Step.panic := by
  rcases get?_isSome b i hi1 hi2 with hb | hb
  · cases hd : fieldDescriptors i with
    | none =>
      rw [parseField_unknown b d i p f hd (by rw [hb]; rfl)]
      intro h; cases h
    | some desc =>
      rcases fieldDescriptors_cases i desc hd with ⟨h2, _⟩ | ⟨h63, _⟩ | ⟨hv, hl, h43, _, _, _, _⟩
      · subst h2
        rw [parseField_2_eq b d p f hb]
        by_cases c1 : p + 2 > len d
        · rw [if_pos c1]; intro h; cases h
        · rw [if_neg c1, slice_of_bounds d p (p + 2) (by omega)]
          simp only
          cases Atoi ((d.drop p.toNat).take ((p + 2).toNat - p.toNat)) with
          | none => intro h; cases h
          | some n =>
            simp only
            by_cases c2 : n < 0
            · rw [if_pos c2]; intro h; cases h
            · rw [if_neg c2]
              by_cases c3 : p + 2 + n > len d
              · rw [if_pos c3]; intro h; cases h
              · rw [if_neg c3, slice_of_bounds d (p + 2) (p + 2 + n) (by omega)]
                intro h; cases h
      · subst h63
        rw [parseField_63_eq b d p f hb, sliceFrom_of_bounds d p hp0 hp1]
        intro h; cases h
      · rw [parseField_fixed_eq b d i p f desc hb hd hv h43]
        by_cases c1 : p + desc.Length > len d
        · rw [if_pos c1]; intro h; cases h
        · rw [if_neg c1, slice_of_bounds d p (p + desc.Length) (by omega)]
          intro h; cases h
  · rw [parseField_unflagged b d i p f hb]
    intro h; cases h

theorem parseField_next_bounds (b : Bitmap) (d : Str) (i p : Int) (f : Fields) (p1 : Int)
    (f1 : Fields) (hi1 : 1 ≤ i) (hi2 : i ≤ 64) (hp0 : 0 ≤ p) (hp1 : p ≤ len d)
    (h : parseField b d i p f = Step.next p1 f1) : p ≤ p1 ∧ p1 ≤ len d := by
  rcases parseField_next_inv b d i p f p1 f1 hi1 hi2 hp0 h with
    ⟨e, _, _⟩ | ⟨_, desc, _, _, _, _, hl, e, hle, _⟩ | ⟨_, _, n, hn, _, _, e, hle, _⟩
  · omega
  · omega
  · omega

/-! ## The parse loop: cursor, panics, early exits -/

theorem fieldNumbers_split_at : ∀ i ∈ fieldNumbers,
    fieldNumbers = fieldNumbers.filter (fun j => decide (j < i)) ++
      i :: fieldNumbers.filter (fun j => decide (i < j)) := by
  decide

theorem runFields_bounds (b : Bitmap) (d : Str) : ∀ (l : List Int) (p : Int) (f : Fields)
    (p1 : Int) (f1 : Fields), (∀ i ∈ l, 1 ≤ i ∧ i ≤ 64) → 0 ≤ p → p ≤ len d →
    runFields b d l p f = some (p1, f1) → p ≤ p1 ∧ p1 ≤ len d := by
  intro l
  induction l with
  | nil =>
    intro p f p1 f1 _ _ hp h
    rw [runFields] at h
    simp only [Option.some.injEq, Prod.mk.injEq] at h
    omega
  | cons i rest ih =>
    intro p f p1 f1 hl hp0 hp1 h
    have hi := hl i (List.mem_cons_self i rest)
    rw [runFields] at h
    cases hs : parseField b d i p f with
    | next q g =>
      rw [hs] at h
      have hb := parseField_next_bounds b d i p f q g hi.1 hi.2 hp0 hp1 hs
      have := ih q g p1 f1 (fun k hk => hl k (List.mem_cons_of_mem i hk)) (by omega) hb.2 h
      omega
    | stop g => rw [hs] at h; cases h
    | fail e => rw [hs] at h; cases h
    | panic => rw [hs] at h; cases h

theorem parseFields_run (b : Bitmap) (d : Str) (l2 : List Int) : ∀ (l1 : List Int) (p : Int)
    (f : Fields),
    parseFields b d (l1 ++ l2) p f =
      match runFields b d l1 p f with
      | some (p1, f1) => parseFields b d l2 p1 f1
      | none => parseFields b d l1 p f := by
  intro l1
  induction l1 with
  | nil => intro p f; rfl
  | cons i rest ih =>
    intro p f
    rw [List.cons_append, parseFields, runFields, parseFields]
    cases parseField b d i p f with
    | next q g => exact ih q g
    | stop g => rfl
    | fail e => rfl
    | panic => rfl

theorem parseFields_ne_panic (b : Bitmap) (d : Str) : ∀ (l : List Int) (p : Int) (f : Fields),
    (∀ i ∈ l, 1 ≤ i ∧ i ≤ 64) → 0 ≤ p → p ≤ len d →
    parseFields b d l p f ≠ Result.panic := by
  intro l
  induction l with
  | nil =>
    intro p f _ _ _ h
    rw [parseFields] at h
    cases h
  | cons i rest ih =>
    intro p f hl hp0 hp1 h
    have hi := hl i (List.mem_cons_self i rest)
    rw [parseFields] at h
    cases hs : parseField b d i p f with
    | next q g =>
      rw [hs] at h
      have hb := parseField_next_bounds b d i p f q g hi.1 hi.2 hp0 hp1 hs
      exact ih q g (fun k hk => hl k (List.mem_cons_of_mem i hk)) (by omega) hb.2 h
    | stop g => rw [hs] at h; cases h
    | fail e => rw [hs] at h; cases h
    | panic => exact parseField_ne_panic b d i p f hi.1 hi.2 hp0 hp1 hs

theorem parseBitmap_ne_panic (hex : Str) : parseBitmap hex ≠ Result.panic := by
  intro h
  by_cases hlen : hex.length = 16
  · by_cases hhex : ∀ c ∈ hex, isHexDigit c
    · rw [parseBitmap_ok hex hlen hhex] at h
      cases h
    · have hbad : ∃ c ∈ hex, ¬ isHexDigit c := by
        by_contra hcon
        exact hhex (fun c hc => by_contra (fun hn => hcon ⟨c, hc, hn⟩))
      obtain ⟨k, hk⟩ := parseBitmapLoop_err hex 0 Bitmap.zero (by omega) hbad
      unfold parseBitmap at h
      rw [if_neg (by unfold len; rw [hlen]; decide), hk] at h
      cases h
  · unfold parseBitmap at h
    rw [if_pos (by unfold len; omega)] at h
    cases h

theorem parseBody_ne_panic (mti hex data : Str) : parseBody mti hex data ≠ Result.panic := by
  intro h
  unfold parseBody at h
  cases hb : parseBitmap hex with
  | error e => rw [hb] at h; cases h
  | panic => exact parseBitmap_ne_panic hex hb
  | ok b =>
    rw [hb] at h
    simp only at h
    cases hf : parseFields b data fieldNumbers 0 Fields.empty with
    | error e => rw [hf] at h; cases h
    | ok f => rw [hf] at h; cases h
    | panic =>
      exact parseFields_ne_panic b data fieldNumbers 0 Fields.empty
        (fun i hi => (mem_fieldNumbers i).mp hi) (le_refl 0) (len_nonneg data) hf

theorem ParseMessage_ne_panic (w : Str) : ParseMessage w ≠ Result.panic := by
  by_cases h : 20 ≤ w.length
  · rw [ParseMessage_of_len w h]
    exact parseBody_ne_panic _ _ _
  · unfold ParseMessage
    rw [if_pos (by unfold len; omega)]
    intro hc
    cases hc

theorem loopState_bounds (b : Bitmap) (d : Str) (i p : Int) (f : Fields)
    (h : loopState b d i = some (p, f)) : 0 ≤ p ∧ p ≤ len d := by
  unfold loopState at h
  exact runFields_bounds b d _ 0 Fields.empty p f
    (fun k hk => (mem_fieldNumbers k).mp (List.mem_of_mem_filter hk)) (le_refl 0)
    (len_nonneg d) h

theorem parseFields_at (b : Bitmap) (d : Str) (i p : Int) (f : Fields)
    (hi : i ∈ fieldNumbers) (h : loopState b d i = some (p, f)) :
    parseFields b d fieldNumbers 0 Fields.empty =
      parseFields b d (i :: fieldNumbers.filter (fun j => decide (i < j))) p f := by
  unfold loopState at h
  have e := fieldNumbers_split_at i hi
  have := parseFields_run b d (i :: fieldNumbers.filter (fun j => decide (i < j)))
    (fieldNumbers.filter (fun j => decide (j < i))) 0 Fields.empty
  rw [← e, h] at this
  exact this

theorem parseFields_fail_at (b : Bitmap) (d : Str) (i p : Int) (f : Fields) (e : Err)
    (hi : i ∈ fieldNumbers) (h : loopState b d i = some (p, f))
    (hs : parseField b d i p f = Step.fail e) :
    parseFields b d fieldNumbers 0 Fields.empty = Result.error e := by
  rw [parseFields_at b d i p f hi h, parseFields, hs]

theorem parseBody_fail_at (mti hex d : Str) (b : Bitmap) (i p : Int) (f : Fields) (e : Err)
    (hb : parseBitmap hex = Result.ok b)
    (hi : i ∈ fieldNumbers) (h : loopState b d i = some (p, f))
    (hs : parseField b d i p f = Step.fail e) :
    parseBody mti hex d = Result.error e := by
  unfold parseBody
  rw [hb]
  simp only
  rw [parseFields_fail_at b d i p f e hi h hs]

/-! ## Insufficient data and length digits -/

theorem minFieldLength_unknown (b : Bitmap) (i : Int) (h : fieldDescriptors i = none) :
    minFieldLength b i = 0 := by
  unfold minFieldLength
  rw [h]
  split <;> rfl

theorem minFieldLength_skip (b : Bitmap) (i : Int)
    (h : ¬ (b.get? (i - 1) = some true ∧ (fieldDescriptors i).isSome = true)) :
    minFieldLength b i = 0 := by
  unfold minFieldLength
  by_cases hb : b.get? (i - 1) = some true
  · rw [if_pos hb]
    cases hd : fieldDescriptors i with
    | none => rfl
    | some desc => exact absurd ⟨hb, by rw [hd]; rfl⟩ h
  · rw [if_neg hb]

theorem minDataLength_unknown (b : Bitmap) (l : List Int)
    (h : ∀ c ∈ l, fieldDescriptors c = none) : minDataLength b l = 0 := by
  unfold minDataLength
  induction l with
  | nil => rfl
  | cons i rest ih =>
    rw [List.map_cons, List.sum_cons, minFieldLength_unknown b i (h i (List.mem_cons_self i rest)),
      ih (fun c hc => h c (List.mem_cons_of_mem i hc))]
    rfl

theorem minDataLength_cons (b : Bitmap) (i : Int) (l : List Int) :
    minDataLength b (i :: l) = minFieldLength b i + minDataLength b l := by
  unfold minDataLength
  rw [List.map_cons, List.sum_cons]

theorem parseFields_min (b : Bitmap) (d : Str) : ∀ (l : List Int) (p : Int) (f f1 : Fields),
    l.Pairwise (fun a c => a = 63 → fieldDescriptors c = none) →
    (∀ i ∈ l, 1 ≤ i ∧ i ≤ 64) → 0 ≤ p → p ≤ len d →
    parseFields b d l p f = Result.ok f1 → p + minDataLength b l ≤ len d := by
  intro l
  induction l with
  | nil =>
    intro p f f1 _ _ _ hp _
    unfold minDataLength
    simp only [List.map_nil, List.sum_nil]
    omega
  | cons i rest ih =>
    intro p f f1 hpw hl hp0 hp1 h
    have hi := hl i (List.mem_cons_self i rest)
    have hrest : ∀ k ∈ rest, 1 ≤ k ∧ k ≤ 64 := fun k hk => hl k (List.mem_cons_of_mem i hk)
    have hpw1 := (List.pairwise_cons.mp hpw).2
    have hhead := (List.pairwise_cons.mp hpw).1
    rw [parseFields] at h
    rw [minDataLength_cons]
    cases hs : parseField b d i p f with
    | next q g =>
      rw [hs] at h
      simp only at h
      have hb := parseField_next_bounds b d i p f q g hi.1 hi.2 hp0 hp1 hs
      have hih := ih q g f1 hpw1 hrest (by omega) hb.2 h
      rcases parseField_next_inv b d i p f q g hi.1 hi.2 hp0 hs with
        ⟨e, _, hn⟩ | ⟨hflag, desc, hd, hv, _, _, _, e, _, _⟩ | ⟨hflag, h2, n, hn, _, _, e, _, _⟩
      · rw [minFieldLength_skip b i hn]
        omega
      · have : minFieldLength b i = desc.Length := by
          unfold minFieldLength
          rw [if_pos hflag, hd]
          simp only [hv, Bool.false_eq_true, if_false]
        omega
      · subst h2
        have : minFieldLength b 2 = 2 := by
          unfold minFieldLength
          rw [if_pos hflag]
          rfl
        omega
    | stop g =>
      have hst := parseField_stop_inv b d i p f g hp0 hp1 hs
      have h63 := hst.2.1
      have e1 : minFieldLength b i = 0 := by
        subst h63
        unfold minFieldLength
        split <;> rfl
      rw [e1, minDataLength_unknown b rest (fun c hc => hhead c hc h63)]
      omega
    | fail e => rw [hs] at h; cases h
    | panic => rw [hs] at h; cases h

theorem loopState_2 (b : Bitmap) (d : Str) : loopState b d 2 = some (0, Fields.empty) := by
  have e : fieldNumbers.filter (fun j => decide (j < 2)) = [1] := by decide
  unfold loopState
  rw [e, runFields,
    parseField_unknown b d 1 0 Fields.empty (by decide)
      (by rcases get?_isSome b 1 (by decide) (by decide) with h | h <;> rw [h] <;> rfl)]
  rfl

theorem Atoi_cons (c : Byte) (rest : Str) :
    Atoi (c :: rest) =
      if c.val = 45 ∨ c.val = 43 then
        if rest = [] then none
        else
          match atoiDigits rest 0 with
          | none => none
          | some n => if c.val = 45 then some (-n) else some n
      else atoiDigits (c :: rest) 0 := rfl

theorem Atoi_rejects (c1 c2 : Byte) (h : ¬ acceptedPfx [c1, c2]) :
    Atoi [c1, c2] = none ∨ ∃ n, Atoi [c1, c2] = some n ∧ n < 0 := by
  unfold acceptedPfx isDigit at h
  simp only [not_or, not_and] at h
  obtain ⟨h1, h2, h3⟩ := h
  rw [Atoi_cons]
  by_cases hs : c1.val = 45 ∨ c1.val = 43
  · rw [if_pos hs, if_neg (by simp)]
    unfold atoiDigits
    simp only
    by_cases hd : (c2.val + 256 - 48) % 256 > 9
    · left
      rw [if_pos hd]
    · rw [if_neg hd]
      unfold atoiDigits
      simp only
      rcases hs with hm | hpl
      · right
        rw [if_pos hm]
        refine ⟨_, rfl, ?_⟩
        have := h3 hm
        have hc2 := c2.isLt
        omega
      · exfalso
        have := h2 hpl
        have hc2 := c2.isLt
        omega
  · rw [if_neg hs]
    left
    unfold atoiDigits
    simp only
    by_cases hd1 : (c1.val + 256 - 48) % 256 > 9
    · rw [if_pos hd1]
    · rw [if_neg hd1]
      unfold atoiDigits
      simp only
      by_cases hd2 : (c2.val + 256 - 48) % 256 > 9
      · rw [if_pos hd2]
      · exfalso
        have hc1 := c1.isLt
        have hc2 := c2.isLt
        have : 48 ≤ c1.val ∧ c1.val ≤ 57 := by omega
        have := h1 this
        omega

theorem parseField_2_short (b : Bitmap) (d : Str) (f : Fields) (hb : b.get? 1 = some true)
    (h : len d < 2) : parseField b d 2 0 f = Step.fail (Err.lengthPfxOutOfRange 2) := by
  rw [parseField_2_eq b d 0 f hb, if_pos (by omega)]

theorem parseField_2_rejected (b : Bitmap) (d : Str) (f : Fields) (hb : b.get? 1 = some true)
    (h : 2 ≤ len d) (hr : ¬ acceptedPfx (d.take 2)) :
    parseField b d 2 0 f = Step.fail (Err.invalidLengthPfx 2) := by
  rw [parseField_2_eq b d 0 f hb, if_neg (by omega), slice_zero d (0 + 2) (by omega) (by omega)]
  simp only
  have e : ((0 : Int) + 2).toNat = 2 := rfl
  rw [e]
  obtain ⟨c1, c2, hc⟩ : ∃ c1 c2, d.take 2 = [c1, c2] := by
    match d, h with
    | [], h => simp [len] at h
    | [_], h => simp [len] at h
    | c1 :: c2 :: t, _ => exact ⟨c1, c2, rfl⟩
  rw [hc] at hr ⊢
  rcases Atoi_rejects c1 c2 hr with hn | ⟨n, hn, hneg⟩
  · rw [hn]
  · rw [hn]
    simp only
    rw [if_pos hneg]

/-! ## Bytes after the last field -/

theorem drop_take_append (d s : Str) (lo n : Nat) (h : lo + n ≤ d.length) :
    ((d ++ s).drop lo).take n = (d.drop lo).take n := by
  rw [List.drop_append_of_le_length (by omega)]
  apply List.take_append_of_le_length
  rw [List.length_drop]
  omega

theorem parseField_skip (b : Bitmap) (d : Str) (i p : Int) (f : Fields) (hi1 : 1 ≤ i)
    (hi2 : i ≤ 64)
    (h : ¬ (b.get? (i - 1) = some true ∧ (fieldDescriptors i).isSome = true)) :
    parseField b d i p f = Step.next p f := by
  rcases get?_isSome b i hi1 hi2 with hb | hb
  · cases hd : fieldDescriptors i with
    | none => exact parseField_unknown b d i p f hd (by rw [hb]; rfl)
    | some desc => exact absurd ⟨hb, by rw [hd]; rfl⟩ h
  · exact parseField_unflagged b d i p f hb

theorem parseField_append (b : Bitmap) (d s : Str) (i p : Int) (f : Fields) (p1 : Int)
    (f1 : Fields) (hi1 : 1 ≤ i) (hi2 : i ≤ 64) (hp : 0 ≤ p)
    (h : parseField b d i p f = Step.next p1 f1) :
    parseField b (d ++ s) i p f = Step.next p1 f1 := by
  have hls : len d ≤ len (d ++ s) := by
    rw [len_append]
    have := len_nonneg s
    omega
  rcases parseField_next_inv b d i p f p1 f1 hi1 hi2 hp h with
    ⟨e1, e2, hn⟩ | ⟨hflag, desc, hd, hv, _, _, hl, e1, hle, e2⟩ |
    ⟨hflag, h2, n, hn, hle2, hat, e1, hle, e2⟩
  · rw [e1, e2]
    exact parseField_skip b (d ++ s) i p f hi1 hi2 hn
  · have h43 : i = 43 → desc.Length = 40 := by
      rcases fieldDescriptors_cases i desc hd with ⟨_, hc⟩ | ⟨_, hc⟩ | ⟨_, _, h43, _⟩
      · rw [hc] at hv; cases hv
      · rw [hc] at hv; cases hv
      · exact h43
    rw [parseField_fixed_eq b (d ++ s) i p f desc hflag hd hv h43, if_neg (by omega),
      slice_of_bounds (d ++ s) p (p + desc.Length) (by omega)]
    simp only
    have e3 : (p + desc.Length).toNat - p.toNat = desc.Length.toNat := by omega
    rw [e3, drop_take_append d s _ _ (by unfold len at hle; omega), e1, e2]
  · subst h2
    rw [parseField_2_eq b (d ++ s) p f hflag, if_neg (by omega),
      slice_of_bounds (d ++ s) p (p + 2) (by omega)]
    simp only
    have e2' : (p + 2).toNat - p.toNat = 2 := by omega
    rw [e2', drop_take_append d s _ _ (by unfold len at hle2; omega), hat]
    simp only
    rw [if_neg (by omega), if_neg (by omega),
      slice_of_bounds (d ++ s) (p + 2) (p + 2 + n) (by omega)]
    simp only
    have e3 : (p + 2 + n).toNat - (p + 2).toNat = n.toNat := by omega
    rw [e3, drop_take_append d s _ _ (by unfold len at hle; omega), e1, e2]

theorem parseFields_append (b : Bitmap) (d s : Str) (h63 : ¬ (b.get? 62 = some true)) :
    ∀ (l : List Int) (p : Int) (f f1 : Fields),
    (∀ i ∈ l, 1 ≤ i ∧ i ≤ 64) → 0 ≤ p → p ≤ len d →
    parseFields b d l p f = Result.ok f1 → parseFields b (d ++ s) l p f = Result.ok f1 := by
  intro l
  induction l with
  | nil =>
    intro p f f1 _ _ _ h
    rw [parseFields] at h ⊢
    exact h
  | cons i rest ih =>
    intro p f f1 hl hp0 hp1 h
    have hi := hl i (List.mem_cons_self i rest)
    rw [parseFields] at h
    cases hs : parseField b d i p f with
    | next q g =>
      rw [hs] at h
      simp only at h
      have hb := parseField_next_bounds b d i p f q g hi.1 hi.2 hp0 hp1 hs
      rw [parseFields, parseField_append b d s i p f q g hi.1 hi.2 hp0 hs]
      exact ih q g f1 (fun k hk => hl k (List.mem_cons_of_mem i hk)) (by omega) hb.2 h
    | stop g =>
      have hst := parseField_stop_inv b d i p f g hp0 hp1 hs
      have e := hst.2.1
      subst e
      exact absurd hst.1 h63
    | fail e => rw [hs] at h; cases h
    | panic => rw [hs] at h; cases h

theorem parseBody_append (mti hex d s : Str) (m : Message)
    (h : parseBody mti hex d = Result.ok m) (h63 : m.Bitmap.flag 62 = false) :
    parseBody mti hex (d ++ s) = Result.ok m := by
  have hbm := parseBody_bitmap mti hex d m h
  unfold parseBody at h ⊢
  rw [hbm] at h ⊢
  simp only at h ⊢
  cases hf : parseFields m.Bitmap d fieldNumbers 0 Fields.empty with
  | error e => rw [hf] at h; cases h
  | panic => rw [hf] at h; cases h
  | ok f =>
    rw [hf] at h
    have hno : ¬ (m.Bitmap.get? 62 = some true) := by
      have := get?_fieldNumber m.Bitmap 63 (by decide) (by decide)
      have e : (63 : Int) - 1 = 62 := rfl
      rw [e] at this
      rw [this]
      have e2 : ((62 : Int)).toNat = 62 := rfl
      rw [e2, h63]
      decide
    rw [parseFields_append m.Bitmap d s hno fieldNumbers 0 Fields.empty f
      (fun i hi => (mem_fieldNumbers i).mp hi) (le_refl 0) (len_nonneg d) hf]
    exact h

theorem ParseMessage_len_of_ok (w : Str) (m : Message) (h : ParseMessage w = Result.ok m) :
    20 ≤ w.length := by
  by_contra hcon
  unfold ParseMessage at h
  rw [if_pos (by unfold len; omega)] at h
  cases h

/-! ## Stored values tile the data part -/

theorem tiles_none (f : Fields) (pfx : Str) (l : List Int) (h : ∀ j ∈ l, f j = none) :
    tiles f pfx l = [] := by
  induction l with
  | nil => rfl
  | cons i rest ih =>
    rw [tiles, h i (List.mem_cons_self i rest),
      ih (fun j hj => h j (List.mem_cons_of_mem i hj))]
    rfl

theorem tiles_congr (f g : Fields) (pfx : Str) (l : List Int) (h : ∀ j ∈ l, f j = g j) :
    tiles f pfx l = tiles g pfx l := by
  induction l with
  | nil => rfl
  | cons i rest ih =>
    rw [tiles, tiles, h i (List.mem_cons_self i rest),
      ih (fun j hj => h j (List.mem_cons_of_mem i hj))]

theorem take_glue (d : Str) (a m n : Nat) :
    (d.drop a).take m ++ (d.drop (a + m)).take n = (d.drop a).take (m + n) := by
  rw [List.take_add, List.drop_drop]

theorem parseFields_frame (b : Bitmap) (d : Str) : ∀ (l : List Int) (p : Int) (f f1 : Fields),
    parseFields b d l p f = Result.ok f1 → ∀ k, k ∉ l → f1 k = f k := by
  intro l
  induction l with
  | nil =>
    intro p f f1 h k _
    rw [parseFields] at h
    simp only [Result.ok.injEq] at h
    rw [h]
  | cons i rest ih =>
    intro p f f1 h k hk
    have hki : k ≠ i := fun e => hk (e ▸ List.mem_cons_self i rest)
    have hkr : k ∉ rest := fun e => hk (List.mem_cons_of_mem i e)
    rw [parseFields] at h
    rcases parseField_cases b d i p f with
      ⟨e, _⟩ | ⟨p1, v, e, _, _⟩ | ⟨v, e, _, _⟩ | ⟨er, e⟩ | e
    · rw [e] at h
      exact ih p f f1 h k hkr
    · rw [e] at h
      rw [ih p1 (f.insert i v) f1 h k hkr]
      unfold Fields.insert
      rw [if_neg hki]
    · rw [e] at h
      simp only [Result.ok.injEq] at h
      rw [← h]
      unfold Fields.insert
      rw [if_neg hki]
    · rw [e] at h; cases h
    · rw [e] at h; cases h

theorem parseFields_tiles (b : Bitmap) (d pfx : Str) :
    ∀ (l : List Int) (p : Int) (f f1 : Fields),
    l.Nodup → l.Pairwise (fun a c => a = 63 → fieldDescriptors c = none) →
    (∀ i ∈ l, 1 ≤ i ∧ i ≤ 64 ∧ i ≠ 2) → (∀ i ∈ l, f i = none) → 0 ≤ p → p ≤ len d →
    parseFields b d l p f = Result.ok f1 →
    (∃ q, p ≤ q ∧ q ≤ len d ∧ tiles f1 pfx l = (d.drop p.toNat).take (q.toNat - p.toNat) ∧
      (63 ∈ l → b.get? 62 = some true → q = len d)) ∧
    (∀ i ∈ l, ∀ desc s, fieldDescriptors i = some desc → desc.Variable = false →
      f1 i = some s → len s = desc.Length) := by
  intro l
  induction l with
  | nil =>
    intro p f f1 _ _ _ _ hp0 hp1 _
    refine ⟨⟨p, le_refl p, hp1, ?_, ?_⟩, ?_⟩
    · simp [tiles]
    · intro h; cases h
    · intro i hi; cases hi
  | cons i rest ih =>
    intro p f f1 hnd hpw hl hnone hp0 hp1 h
    have hi := hl i (List.mem_cons_self i rest)
    have hrest : ∀ k ∈ rest, 1 ≤ k ∧ k ≤ 64 ∧ k ≠ 2 :=
      fun k hk => hl k (List.mem_cons_of_mem i hk)
    have hpw1 := (List.pairwise_cons.mp hpw).2
    have hhead := (List.pairwise_cons.mp hpw).1
    have hnd1 := (List.nodup_cons.mp hnd).2
    have hnotin := (List.nodup_cons.mp hnd).1
    have hfi : f i = none := hnone i (List.mem_cons_self i rest)
    have hfrest : ∀ k ∈ rest, f k = none := fun k hk => hnone k (List.mem_cons_of_mem i hk)
    have hframe := parseFields_frame b d (i :: rest) p f f1 h
    rw [parseFields] at h
    cases hs : parseField b d i p f with
    | next q g =>
      rw [hs] at h
      simp only at h
      have hb := parseField_next_bounds b d i p f q g hi.1 hi.2.1 hp0 hp1 hs
      have hfr := parseFields_frame b d rest q g f1 h
      rcases parseField_next_inv b d i p f q g hi.1 hi.2.1 hp0 hs with
        ⟨e1, e2, _⟩ | ⟨hflag, desc, hd, hv, _, hn63, hlen, e1, hle, e2⟩ | ⟨_, h2, _⟩
      · subst e1 e2
        obtain ⟨⟨q1, hq1, hq2, ht, h63⟩, hfix⟩ :=
          ih q g f1 hnd1 hpw1 hrest hfrest hp0 hp1 h
        have hf1i : f1 i = none := by rw [hfr i hnotin, hfi]
        refine ⟨⟨q1, hq1, hq2, ?_, ?_⟩, ?_⟩
        · rw [tiles, hf1i, ht]
          rfl
        · intro hmem hflag
          rcases List.mem_cons.mp hmem with e | e
          · exfalso
            subst e
            rw [parseField_63_eq b d q g hflag, sliceFrom_of_bounds d q hp0 hp1] at hs
            cases hs
          · exact h63 e hflag
        · intro j hj desc s hd hv hsome
          rcases List.mem_cons.mp hj with e | e
          · rw [e, hf1i] at hsome; cases hsome
          · exact hfix j e desc s hd hv hsome
      · have hgrest : ∀ k ∈ rest, g k = none := by
          intro k hk
          rw [e2]
          unfold Fields.insert
          rw [if_neg (fun e => hnotin (by rw [← e]; exact hk))]
          exact hfrest k hk
        obtain ⟨⟨q1, hq1, hq2, ht, h63⟩, hfix⟩ :=
          ih q g f1 hnd1 hpw1 hrest hgrest (by omega) hb.2 h
        have hf1i : f1 i = some ((d.drop p.toNat).take desc.Length.toNat) := by
          rw [hfr i hnotin, e2]
          unfold Fields.insert
          rw [if_pos rfl]
        refine ⟨⟨q1, by omega, hq2, ?_, ?_⟩, ?_⟩
        · rw [tiles, hf1i, ht]
          simp only [if_neg hi.2.2]
          have e3 : q.toNat = p.toNat + desc.Length.toNat := by omega
          have e4 : q1.toNat - p.toNat
              = desc.Length.toNat + (q1.toNat - (p.toNat + desc.Length.toNat)) := by omega
          rw [e3, e4, take_glue]
        · intro hmem hflag63
          rcases List.mem_cons.mp hmem with e | e
          · exact absurd e.symm hn63
          · exact h63 e hflag63
        · intro j hj desc1 s hd1 hv1 hsome
          rcases List.mem_cons.mp hj with e | e
          · subst e
            rw [hd] at hd1
            simp only [Option.some.injEq] at hd1
            subst hd1
            rw [hf1i] at hsome
            simp only [Option.some.injEq] at hsome
            rw [← hsome]
            unfold len at hle ⊢
            rw [List.length_take, List.length_drop]
            omega
          · exact hfix j e desc1 s hd1 hv1 hsome
      · exact absurd h2 hi.2.2
    | stop g =>
      rw [hs] at h
      simp only [Result.ok.injEq] at h
      have hst := parseField_stop_inv b d i p f g hp0 hp1 hs
      have e63 := hst.2.1
      subst e63
      have hg : f1 = f.insert 63 (d.drop p.toNat) := by rw [← h, hst.2.2]
      have hf1rest : ∀ k ∈ rest, f1 k = none := by
        intro k hk
        rw [hg]
        unfold Fields.insert
        rw [if_neg (fun e => hnotin (by rw [← e]; exact hk))]
        exact hfrest k hk
      refine ⟨⟨len d, hp1, le_refl _, ?_, fun _ _ => rfl⟩, ?_⟩
      · have hf1 : f1 63 = some (d.drop p.toNat) := by
          rw [hg]
          unfold Fields.insert
          rw [if_pos rfl]
        rw [tiles, hf1, tiles_none f1 pfx rest hf1rest]
        simp only [if_neg hi.2.2, List.append_nil]
        symm
        apply List.take_of_length_le
        rw [List.length_drop]
        unfold len
        omega
      · intro j hj desc s hd hv hsome
        rcases List.mem_cons.mp hj with e | e
        · subst e
          have hd63 : fieldDescriptors 63 = some ⟨11, true, ascii "an"⟩ := by decide
          rw [hd63] at hd
          simp only [Option.some.injEq] at hd
          rw [← hd] at hv
          cases hv
        · rw [hf1rest j e] at hsome
          cases hsome
    | fail e => rw [hs] at h; cases h
    | panic => rw [hs] at h; cases h

theorem fieldNumbers_head : fieldNumbers = 1 :: 2 :: fieldNumbersAbove2 := by decide

theorem fieldNumbersAbove2_nodup : fieldNumbersAbove2.Nodup := by decide

theorem fieldNumbersAbove2_after_63 :
    fieldNumbersAbove2.Pairwise (fun a c => a = 63 → fieldDescriptors c = none) := by
  decide

theorem mem_fieldNumbersAbove2 (i : Int) : i ∈ fieldNumbersAbove2 ↔ 2 < i ∧ i ≤ 64 := by
  unfold fieldNumbersAbove2
  rw [List.mem_filter, mem_fieldNumbers]
  simp only [decide_eq_true_eq]
  omega

theorem parseFields_tiles_all (b : Bitmap) (d : Str) (f1 : Fields)
    (h : parseFields b d fieldNumbers 0 Fields.empty = Result.ok f1) :
    (∃ q, 0 ≤ q ∧ q ≤ len d ∧ tiles f1 (d.take 2) fieldNumbers = d.take q.toNat ∧
      (b.get? 62 = some true → q = len d)) ∧
    (∀ i desc s, fieldDescriptors i = some desc → desc.Variable = false → f1 i = some s →
      len s = desc.Length) ∧
    (∀ s, f1 2 = some s → Atoi (d.take 2) = some (len s)) := by
  have h1 : parseField b d 1 0 Fields.empty = Step.next 0 Fields.empty :=
    parseField_skip b d 1 0 Fields.empty (by decide) (by decide)
      (fun hc => by
        have : fieldDescriptors 1 = none := by decide
        rw [this] at hc
        cases hc.2)
  rw [fieldNumbers_head, parseFields, h1] at h
  simp only at h
  rw [parseFields] at h
  rw [fieldNumbers_head]
  have hmem : ∀ i ∈ fieldNumbersAbove2, 1 ≤ i ∧ i ≤ 64 ∧ i ≠ 2 := by
    intro i hi
    have := (mem_fieldNumbersAbove2 i).mp hi
    omega
  have h1n : (1 : Int) ∉ fieldNumbersAbove2 := by decide
  have h2n : (2 : Int) ∉ fieldNumbersAbove2 := by decide
  have h63m : (63 : Int) ∈ fieldNumbersAbove2 := by decide
  cases hs : parseField b d 2 0 Fields.empty with
  | next q g =>
    rw [hs] at h
    simp only at h
    have hb := parseField_next_bounds b d 2 0 Fields.empty q g (by decide) (by decide)
      (le_refl 0) (len_nonneg d) hs
    have hfr := parseFields_frame b d fieldNumbersAbove2 q g f1 h
    have hg : ∀ k, k ≠ 2 → g k = none := by
      intro k hk
      rcases parseField_cases b d 2 0 Fields.empty with
        ⟨e, _⟩ | ⟨p1, v, e, _, _⟩ | ⟨v, e, _, _⟩ | ⟨er, e⟩ | e
      · rw [e] at hs
        simp only [Step.next.injEq] at hs
        rw [← hs.2]
        rfl
      · rw [e] at hs
        simp only [Step.next.injEq] at hs
        rw [← hs.2]
        unfold Fields.insert
        rw [if_neg hk]
        rfl
      · rw [e] at hs; cases hs
      · rw [e] at hs; cases hs
      · rw [e] at hs; cases hs
    obtain ⟨⟨q1, hq1, hq2, ht, h63⟩, hfix⟩ :=
      parseFields_tiles b d (d.take 2) fieldNumbersAbove2 q g f1 fieldNumbersAbove2_nodup
        fieldNumbersAbove2_after_63 hmem (fun i hi => hg i (hmem i hi).2.2) hb.1 hb.2 h
    have hf11 : f1 1 = none := by rw [hfr 1 h1n, hg 1 (by decide)]
    have hf12 : f1 2 = g 2 := hfr 2 h2n
    have hfixall : ∀ i desc s, fieldDescriptors i = some desc → desc.Variable = false →
        f1 i = some s → len s = desc.Length := by
      intro i desc s hd hv hsome
      rcases fieldDescriptors_cases i desc hd with ⟨_, hc⟩ | ⟨_, hc⟩ | ⟨_, _, _, hn2, _, hi1, hi2⟩
      · rw [hc] at hv; cases hv
      · rw [hc] at hv; cases hv
      · by_cases hi : i = 1
        · subst hi
          rw [hf11] at hsome
          cases hsome
        · exact hfix i ((mem_fieldNumbersAbove2 i).mpr (by omega)) desc s hd hv hsome
    rcases parseField_next_inv b d 2 0 Fields.empty q g (by decide) (by decide) (le_refl 0) hs
      with ⟨e1, e2, _⟩ | ⟨_, _, _, _, hne, _⟩ | ⟨_, _, n, hn, hle2, hat, e1, hle, e2⟩
    · have hf2 : f1 2 = none := by rw [hf12, e2]; rfl
      refine ⟨⟨q1, by omega, hq2, ?_, fun hflag => h63 h63m hflag⟩, hfixall, ?_⟩
      · rw [tiles, tiles, hf11, hf2, ht, e1]
        simp
      · intro s hsome
        rw [hf2] at hsome
        cases hsome
    · exact absurd rfl hne
    · have hf2 : f1 2 = some ((d.drop 2).take n.toNat) := by
        rw [hf12, e2]
        unfold Fields.insert
        rw [if_pos rfl]
        rfl
      have hat2 : Atoi (d.take 2) = some n := hat
      refine ⟨⟨q1, by omega, hq2, ?_, fun hflag => h63 h63m hflag⟩, hfixall, ?_⟩
      · rw [tiles, tiles, hf11, hf2, ht]
        simp only [if_true, List.nil_append]
        have e3 : q.toNat = 0 + 2 + n.toNat := by omega
        have e4 : q1.toNat = 2 + n.toNat + (q1.toNat - (0 + 2 + n.toNat)) := by omega
        have g1 := take_glue d 0 2 n.toNat
        have g2 := take_glue d 0 (2 + n.toNat) (q1.toNat - (0 + 2 + n.toNat))
        simp only [List.drop_zero, Nat.zero_add] at g1 g2
        rw [e3]
        simp only [Nat.zero_add]
        rw [g1, g2]
        congr 1
        omega
      · intro s hsome
        rw [hf2] at hsome
        simp only [Option.some.injEq] at hsome
        rw [hat2, ← hsome]
        congr 1
        unfold len at hle ⊢
        rw [List.length_take, List.length_drop]
        omega
  | stop g =>
    have hst := parseField_stop_inv b d 2 0 Fields.empty g (le_refl 0) (len_nonneg d) hs
    exact absurd hst.2.1 (by decide)
  | fail e => rw [hs] at h; cases h
  | panic => rw [hs] at h; cases h

/-! ## The cursor, from the wire -/

theorem bytesNeeded_skip (b : Bitmap) (d : Str) (i c : Int)
    (h : ¬ (b.get? (i - 1) = some true ∧ (fieldDescriptors i).isSome = true)) :
    bytesNeeded b d i c = 0 := by
  unfold bytesNeeded
  by_cases hb : b.get? (i - 1) = some true
  · rw [if_pos hb]
    cases hd : fieldDescriptors i with
    | none => rfl
    | some desc => exact absurd ⟨hb, by rw [hd]; rfl⟩ h
  · rw [if_neg hb]

theorem parseField_next_unread (b : Bitmap) (d : Str) (i p : Int) (f : Fields) (p1 : Int)
    (f1 : Fields) (hi1 : 1 ≤ i) (hi2 : i ≤ 64) (hp : 0 ≤ p)
    (h : parseField b d i p f = Step.next p1 f1) : p1 = p + bytesNeeded b d i p := by
  rcases parseField_next_inv b d i p f p1 f1 hi1 hi2 hp h with
    ⟨e, _, hn⟩ | ⟨hflag, desc, hd, hv, _, _, _, e, _, _⟩ | ⟨hflag, h2, n, _, _, hat, e, _, _⟩
  · rw [bytesNeeded_skip b d i p hn]
    omega
  · have : bytesNeeded b d i p = desc.Length := by
      unfold bytesNeeded
      rw [if_pos hflag, hd]
      simp only [hv, Bool.false_eq_true, if_false]
    omega
  · subst h2
    have : bytesNeeded b d 2 p = 2 + n := by
      unfold bytesNeeded lengthDigitsAt
      rw [if_pos hflag, hat]
      rfl
    omega

theorem runFields_unread (b : Bitmap) (d : Str) : ∀ (l : List Int) (p : Int) (f : Fields)
    (p1 : Int) (f1 : Fields), (∀ i ∈ l, 1 ≤ i ∧ i ≤ 64) → 0 ≤ p → p ≤ len d →
    runFields b d l p f = some (p1, f1) → p1 = unreadAfter b d l p := by
  intro l
  induction l with
  | nil =>
    intro p f p1 f1 _ _ _ h
    rw [runFields] at h
    simp only [Option.some.injEq, Prod.mk.injEq] at h
    rw [unreadAfter]
    exact h.1.symm
  | cons i rest ih =>
    intro p f p1 f1 hl hp0 hp1 h
    have hi := hl i (List.mem_cons_self i rest)
    rw [runFields] at h
    cases hs : parseField b d i p f with
    | next q g =>
      rw [hs] at h
      have hb := parseField_next_bounds b d i p f q g hi.1 hi.2 hp0 hp1 hs
      have hq := parseField_next_unread b d i p f q g hi.1 hi.2 hp0 hs
      rw [unreadAfter, ← hq]
      exact ih q g p1 f1 (fun k hk => hl k (List.mem_cons_of_mem i hk)) (by omega) hb.2 h
    | stop g => rw [hs] at h; cases h
    | fail e => rw [hs] at h; cases h
    | panic => rw [hs] at h; cases h

theorem loopState_unread (b : Bitmap) (d : Str) (i p : Int) (f : Fields)
    (h : loopState b d i = some (p, f)) : p = unreadAt b d i := by
  unfold loopState at h
  unfold unreadAt
  exact runFields_unread b d _ 0 Fields.empty p f
    (fun k hk => (mem_fieldNumbers k).mp (List.mem_of_mem_filter hk)) (le_refl 0)
    (len_nonneg d) h

theorem runFields_of_ok (b : Bitmap) (d : Str) : ∀ (l : List Int) (p : Int) (f f1 : Fields),
    (∀ i ∈ l, i ≠ 63) → 0 ≤ p → p ≤ len d →
    (∀ i ∈ l, 1 ≤ i ∧ i ≤ 64) →
    parseFields b d l p f = Result.ok f1 → ∃ p1 g, runFields b d l p f = some (p1, g) := by
  intro l
  induction l with
  | nil =>
    intro p f f1 _ _ _ _ _
    exact ⟨p, f, rfl⟩
  | cons i rest ih =>
    intro p f f1 h63 hp0 hp1 hl h
    have hi := hl i (List.mem_cons_self i rest)
    rw [parseFields] at h
    rw [runFields]
    cases hs : parseField b d i p f with
    | next q g =>
      rw [hs] at h
      have hb := parseField_next_bounds b d i p f q g hi.1 hi.2 hp0 hp1 hs
      exact ih q g f1 (fun k hk => h63 k (List.mem_cons_of_mem i hk)) (by omega) hb.2
        (fun k hk => hl k (List.mem_cons_of_mem i hk)) h
    | stop g =>
      have hst := parseField_stop_inv b d i p f g hp0 hp1 hs
      exact absurd hst.2.1 (h63 i (List.mem_cons_self i rest))
    | fail e => rw [hs] at h; cases h
    | panic => rw [hs] at h; cases h

theorem loopState_of_ok (b : Bitmap) (d : Str) (f1 : Fields) (k : Int)
    (hk : k ∈ fieldNumbers) (hk63 : k ≤ 63)
    (h : parseFields b d fieldNumbers 0 Fields.empty = Result.ok f1) :
    ∃ p g, loopState b d k = some (p, g) := by
  have e := fieldNumbers_split_at k hk
  have hrun := parseFields_run b d (k :: fieldNumbers.filter (fun j => decide (k < j)))
    (fieldNumbers.filter (fun j => decide (j < k))) 0 Fields.empty
  rw [← e, h] at hrun
  unfold loopState
  cases hr : runFields b d (fieldNumbers.filter (fun j => decide (j < k))) 0 Fields.empty with
  | some pg => exact ⟨pg.1, pg.2, rfl⟩
  | none =>
    rw [hr] at hrun
    simp only at hrun
    obtain ⟨p1, g, hpg⟩ := runFields_of_ok b d _ 0 Fields.empty f1
      (fun i hi => by
        have := (List.mem_filter.mp hi).2
        simp only [decide_eq_true_eq] at this
        omega)
      (le_refl 0) (len_nonneg d)
      (fun i hi => (mem_fieldNumbers i).mp (List.mem_of_mem_filter hi)) hrun.symm
    rw [hr] at hpg
    cases hpg

theorem filter_lt_succ : ∀ i ∈ fieldNumbers,
    fieldNumbers.filter (fun j => decide (j < i + 1)) =
      fieldNumbers.filter (fun j => decide (j < i)) ++ [i] := by
  decide

theorem unreadAfter_append (b : Bitmap) (d : Str) (l2 : List Int) : ∀ (l1 : List Int) (c : Int),
    unreadAfter b d (l1 ++ l2) c = unreadAfter b d l2 (unreadAfter b d l1 c) := by
  intro l1
  induction l1 with
  | nil => intro c; rfl
  | cons j rest ih =>
    intro c
    rw [List.cons_append, unreadAfter, unreadAfter, ih]

theorem unreadAt_succ (b : Bitmap) (d : Str) (i : Int) (hi : i ∈ fieldNumbers) :
    unreadAt b d (i + 1) = unreadAt b d i + bytesNeeded b d i (unreadAt b d i) := by
  unfold unreadAt
  rw [filter_lt_succ i hi, unreadAfter_append]
  rfl

theorem unread_le_of_ok (b : Bitmap) (d : Str) (f1 : Fields) (i : Int)
    (hi1 : 1 ≤ i) (hi2 : i < 63)
    (h : parseFields b d fieldNumbers 0 Fields.empty = Result.ok f1) :
    unreadAt b d i + bytesNeeded b d i (unreadAt b d i) ≤ len d := by
  have hmem : i ∈ fieldNumbers := (mem_fieldNumbers i).mpr ⟨hi1, by omega⟩
  have hmem1 : i + 1 ∈ fieldNumbers := (mem_fieldNumbers (i + 1)).mpr ⟨by omega, by omega⟩
  obtain ⟨p, g, hst⟩ := loopState_of_ok b d f1 (i + 1) hmem1 (by omega) h
  have hb := loopState_bounds b d (i + 1) p g hst
  have hp := loopState_unread b d (i + 1) p g hst
  rw [unreadAt_succ b d i hmem] at hp
  omega

theorem unreadAt_2 (b : Bitmap) (d : Str) : unreadAt b d 2 = 0 := by
  have e : fieldNumbers.filter (fun j => decide (j < 2)) = [1] := by decide
  unfold unreadAt
  rw [e, unreadAfter, unreadAfter,
    bytesNeeded_skip b d 1 0 (fun hc => by
      have : fieldDescriptors 1 = none := by decide
      rw [this] at hc
      cases hc.2)]
  rfl

theorem parseBody_error_of_not_ok (mti hex data : Str)
    (h : ∀ m, parseBody mti hex data ≠ Result.ok m) :
    ∃ e, parseBody mti hex data = Result.error e := by
  cases hp : parseBody mti hex data with
  | error e => exact ⟨e, rfl⟩
  | panic => exact absurd hp (parseBody_ne_panic mti hex data)
  | ok m => exact absurd hp (h m)

theorem parseBody_fields_ok (mti hex data : Str) (b : Bitmap) (m : Message)
    (hb : parseBitmap hex = Result.ok b) (h : parseBody mti hex data = Result.ok m) :
    parseFields b data fieldNumbers 0 Fields.empty = Result.ok m.Fields := by
  unfold parseBody at h
  rw [hb] at h
  simp only at h
  cases hf : parseFields b data fieldNumbers 0 Fields.empty with
  | error e => rw [hf] at h; cases h
  | panic => rw [hf] at h; cases h
  | ok f =>
    rw [hf] at h
    simp only [Result.ok.injEq] at h
    rw [← h]

/-! ## Claims: the bitmap codec -/

/-- C4: decoding undoes encoding. For every 128-flag array `b`, `generateBitmap b` returns a
string of 16 hexadecimal digits, and `parseBitmap` of that string succeeds with an array
equal to `b` at indices 0..63 and false at indices 64..127. -/
theorem parseBitmap_generateBitmap (b : Bitmap) :
    ∃ hex, generateBitmap b = Result.ok hex ∧ hex.length = 16 ∧ (∀ c ∈ hex, isHexDigit c) ∧
      ∃ b1, parseBitmap hex = Result.ok b1 ∧
        ∀ x : Fin 128, b1 x = (if x.val < 64 then b x else false) :=
  ⟨hexOf b, generateBitmap_eq b, hexOf_length b, hexOf_isHex b, layout (hexOf b) 0 Bitmap.zero,
    parseBitmap_ok _ (hexOf_length b) (hexOf_isHex b), layout_hexOf b⟩

/-- C5: encoding undoes decoding up to case. For every 16-character string `h` of
hexadecimal digits, `parseBitmap h` succeeds and `generateBitmap` of its result is `h` with
every letter upper-cased. -/
theorem generateBitmap_parseBitmap (h : Str) (hlen : h.length = 16)
    (hhex : ∀ c ∈ h, isHexDigit c) :
    ∃ b, parseBitmap h = Result.ok b ∧ generateBitmap b = Result.ok (h.map upperCase) :=
  ⟨layout h 0 Bitmap.zero, parseBitmap_ok h hlen hhex, by
    rw [generateBitmap_eq, hexOf_layout h hlen hhex]⟩

/-- Witness of C5 at the mixed-case string `"2a3B00000000fF0c"`. -/
theorem generateBitmap_parseBitmap_witness :
    (ascii "2a3B00000000fF0c").length = 16 ∧ (∀ c ∈ ascii "2a3B00000000fF0c", isHexDigit c) ∧
      ∃ b, parseBitmap (ascii "2a3B00000000fF0c") = Result.ok b ∧
        generateBitmap b = Result.ok ((ascii "2a3B00000000fF0c").map upperCase) :=
  ⟨by decide, by decide, generateBitmap_parseBitmap _ (by decide) (by decide)⟩

/-- C6: bit layout of `parseBitmap`. For every 16-character string `h` of hexadecimal
digits the call succeeds; for `k` in 0..15 and `j` in 0..3 the flag at index `4k + j` is set
exactly when bit `3 - j` of the numeric value of `h[k]` is 1; the flags at indices 64..127
are all false. -/
theorem parseBitmap_bit_layout (h : Str) (hlen : h.length = 16)
    (hhex : ∀ c ∈ h, isHexDigit c) :
    ∃ b, parseBitmap h = Result.ok b ∧
      (∀ k j, k < 16 → j < 4 →
        (b.flag (4 * k + j) = true ↔ hexValue (h.getD k 0) / 2 ^ (3 - j) % 2 = 1)) ∧
      (∀ x : Fin 128, 64 ≤ x.val → b x = false) := by
  refine ⟨layout h 0 Bitmap.zero, parseBitmap_ok h hlen hhex, ?_, layout_high h hlen⟩
  intro k j hk hj
  have hmem : h.getD k 0 ∈ h := by
    rw [List.getD_eq_getElem _ _ (by omega)]
    exact List.getElem_mem _
  rw [layout_low h hlen k j hk hj]
  unfold hexBit
  rw [hexValue_eq _ (hhex _ hmem), Option.getD_some]
  simp

/-- Witness of C6 at `"2000000000000000"`, which flags field 3 only. -/
theorem parseBitmap_bit_layout_witness :
    (ascii "2000000000000000").length = 16 ∧ (∀ c ∈ ascii "2000000000000000", isHexDigit c) ∧
      ∃ b, parseBitmap (ascii "2000000000000000") = Result.ok b ∧
        (∀ k j, k < 16 → j < 4 →
          (b.flag (4 * k + j) = true ↔
            hexValue ((ascii "2000000000000000").getD k 0) / 2 ^ (3 - j) % 2 = 1)) ∧
        (∀ x : Fin 128, 64 ≤ x.val → b x = false) :=
  ⟨by decide, by decide, parseBitmap_bit_layout _ (by decide) (by decide)⟩

/-- The two examples of C6: `"2000000000000000"` sets exactly index 2 (field 3) and
`"0000000000000002"` sets exactly index 62 (field 63). -/
theorem parseBitmap_examples :
    (∃ b, parseBitmap (ascii "2000000000000000") = Result.ok b ∧
      ∀ x : Fin 128, (b x = true ↔ x.val = 2)) ∧
    (∃ b, parseBitmap (ascii "0000000000000002") = Result.ok b ∧
      ∀ x : Fin 128, (b x = true ↔ x.val = 62)) :=
  ⟨⟨_, parseBitmap_ok _ (by decide) (by decide), by decide⟩,
   ⟨_, parseBitmap_ok _ (by decide) (by decide), by decide⟩⟩

/-- C7: `parseBitmap` fails exactly on malformed input. It returns an error if and only if
the length of `h` is not 16 or some character of `h` is not a hexadecimal digit; on every
other string it returns an array (it never panics). -/
theorem parseBitmap_error_iff (h : Str) :
    ((parseBitmap h).isError = true ↔ (h.length ≠ 16 ∨ ∃ c ∈ h, ¬ isHexDigit c)) ∧
      ((parseBitmap h).isOk = true ↔ (h.length = 16 ∧ ∀ c ∈ h, isHexDigit c)) := by
  by_cases hlen : h.length = 16
  · by_cases hhex : ∀ c ∈ h, isHexDigit c
    · rw [parseBitmap_ok h hlen hhex]
      simp only [Result.isError, Result.isOk]
      constructor
      · constructor
        · intro hf; cases hf
        · rintro (h1 | ⟨c, hc, hbad⟩)
          · exact absurd hlen h1
          · exact absurd (hhex c hc) hbad
      · exact ⟨fun _ => ⟨hlen, hhex⟩, fun _ => trivial⟩
    · have hbad : ∃ c ∈ h, ¬ isHexDigit c := by
        by_contra hcon
        exact hhex (fun c hc => by_contra (fun hn => hcon ⟨c, hc, hn⟩))
      have hl : len h = 16 := by simp [len, hlen]
      obtain ⟨k, hk⟩ := parseBitmapLoop_err h 0 Bitmap.zero (by omega) hbad
      have : parseBitmap h = Result.error (Err.failedToParseHex k) := by
        unfold parseBitmap
        rw [if_neg (by rw [hl]; decide)]
        exact hk
      rw [this]
      simp only [Result.isError, Result.isOk]
      constructor
      · exact ⟨fun _ => Or.inr hbad, fun _ => trivial⟩
      · constructor
        · intro hf; cases hf
        · rintro ⟨_, h2⟩; exact absurd h2 hhex
  · have hl : len h ≠ 16 := by
      unfold len
      intro hcon
      apply hlen
      exact_mod_cast hcon
    have : parseBitmap h = Result.error (Err.invalidBitmapLength (len h)) := by
      unfold parseBitmap
      rw [if_pos hl]
    rw [this]
    simp only [Result.isError, Result.isOk]
    constructor
    · exact ⟨fun _ => Or.inl hlen, fun _ => trivial⟩
    · constructor
      · intro hf; cases hf
      · rintro ⟨h1, _⟩; exact absurd h1 hlen

/-! ## Claims: the parser -/

/-- C8: bitmap and fields agree after parsing. For every wire string on which
`ParseMessage` succeeds and every field number `i` with a descriptor in the registry, the
returned message has `Bitmap[i-1] == true` if and only if its `Fields` map contains key
`i`. -/
theorem ParseMessage_bitmap_fields (w : Str) (m : Message) (i : Int)
    (h : ParseMessage w = Result.ok m) (hi : (fieldDescriptors i).isSome = true) :
    m.Bitmap.get? (i - 1) = some true ↔ (m.Fields i).isSome = true := by
  have hlen : 20 ≤ w.length := by
    by_contra hcon
    unfold ParseMessage at h
    rw [if_pos (by unfold len; omega)] at h
    cases h
  rw [ParseMessage_of_len w hlen] at h
  unfold parseBody at h
  cases hb : parseBitmap ((w.drop 4).take 16) with
  | error e => rw [hb] at h; cases h
  | panic => rw [hb] at h; cases h
  | ok b =>
    rw [hb] at h
    simp only at h
    cases hf : parseFields b (w.drop 20) fieldNumbers 0 Fields.empty with
    | error e => rw [hf] at h; cases h
    | panic => rw [hf] at h; cases h
    | ok f =>
      rw [hf] at h
      simp only [Result.ok.injEq] at h
      subst h
      have key := parseFields_keys b (w.drop 20) fieldNumbers 0 Fields.empty f
        fieldNumbers_after_63 hf i
      simp only
      rw [key]
      have hmem : i ∈ fieldNumbers := by
        rw [mem_fieldNumbers]
        unfold fieldDescriptors at hi
        repeat' split at hi
        all_goals first | omega | cases hi
      constructor
      · exact fun h1 => Or.inr ⟨hmem, h1, hi⟩
      · rintro (h1 | ⟨_, h2, _⟩)
        · cases h1
        · exact h2

/-- Witness of C8 at the wire string of scenario A and field 3. -/
theorem ParseMessage_bitmap_fields_witness :
    ∃ m, ParseMessage (ascii "08002000000000000000123456") = Result.ok m ∧
      (fieldDescriptors 3).isSome = true ∧
      (m.Bitmap.get? (3 - 1) = some true ↔ (m.Fields 3).isSome = true) :=
  (ok_of_isOk (ParseMessage (ascii "08002000000000000000123456")) (by decide)).elim
    (fun m h => ⟨m, h, by decide, ParseMessage_bitmap_fields _ m 3 h (by decide)⟩)

/-- C9: field 63 takes the whole remainder and ends parsing. For every 4-byte MTI and every
string `r`, parsing `MTI ++ "0000000000000002" ++ r` succeeds with a `Fields` map that is
exactly `{63 -> r}`; the same holds with bitmap `"0000000000000003"`, where field 64 is
flagged too. -/
theorem ParseMessage_field63 (mti r : Str) (hm : mti.length = 4) :
    (∃ m, ParseMessage (mti ++ ascii "0000000000000002" ++ r) = Result.ok m ∧
      m.MTI = mti ∧ m.Fields = Fields.empty.insert 63 r) ∧
    (∃ m, ParseMessage (mti ++ ascii "0000000000000003" ++ r) = Result.ok m ∧
      m.MTI = mti ∧ m.Fields = Fields.empty.insert 63 r) := by
  constructor
  · refine ⟨⟨mti, layout (ascii "0000000000000002") 0 Bitmap.zero, Fields.empty.insert 63 r⟩,
      ?_, rfl, rfl⟩
    rw [List.append_assoc, ParseMessage_parts mti _ r hm (by decide)]
    exact parseBody_only63 mti _ r (by decide) (by decide) (by decide) (by decide)
  · refine ⟨⟨mti, layout (ascii "0000000000000003") 0 Bitmap.zero, Fields.empty.insert 63 r⟩,
      ?_, rfl, rfl⟩
    rw [List.append_assoc, ParseMessage_parts mti _ r hm (by decide)]
    exact parseBody_only63 mti _ r (by decide) (by decide) (by decide) (by decide)

/-- Witness of C9: scenario C, MTI `"0800"` and remainder `"HELLOWORLD"`. -/
theorem ParseMessage_field63_witness :
    (ascii "0800").length = 4 ∧
    (∃ m, ParseMessage (ascii "0800" ++ ascii "0000000000000002" ++ ascii "HELLOWORLD")
        = Result.ok m ∧
      m.MTI = ascii "0800" ∧ m.Fields = Fields.empty.insert 63 (ascii "HELLOWORLD")) ∧
    (∃ m, ParseMessage (ascii "0800" ++ ascii "0000000000000003" ++ ascii "HELLOWORLD")
        = Result.ok m ∧
      m.MTI = ascii "0800" ∧ m.Fields = Fields.empty.insert 63 (ascii "HELLOWORLD")) :=
  ⟨by decide, ParseMessage_field63 (ascii "0800") (ascii "HELLOWORLD") (by decide)⟩

/-- C10: unknown fields are skipped without consuming bytes. Take a wire string
`mti ++ hex ++ data` whose bitmap `hex` decodes to `b`, a field number `k` without a
descriptor (in 1..64 or not), and the same wire string with a bitmap `hex1` that decodes to `b` with flag
`k` set. Then parsing one succeeds exactly when parsing the other does (with the same error
otherwise), and on success both results have the same MTI and the same `Fields` map, which
does not contain key `k`; their bitmaps differ at most at index `k - 1`. -/
theorem ParseMessage_unknown_flag (mti hex hex1 data : Str) (b b1 : Bitmap) (k : Int)
    (hm : mti.length = 4) (hk : fieldDescriptors k = none)
    (hb : parseBitmap hex = Result.ok b) (hb1 : parseBitmap hex1 = Result.ok b1)
    (hset : ∀ x : Fin 128, b1 x = if (x.val : Int) = k - 1 then true else b x) :
    (ParseMessage (mti ++ hex1 ++ data)).isOk = (ParseMessage (mti ++ hex ++ data)).isOk ∧
    (∀ e, ParseMessage (mti ++ hex1 ++ data) = Result.error e ↔
      ParseMessage (mti ++ hex ++ data) = Result.error e) ∧
    (∀ m m1, ParseMessage (mti ++ hex ++ data) = Result.ok m →
      ParseMessage (mti ++ hex1 ++ data) = Result.ok m1 →
      m1.MTI = m.MTI ∧ m1.Fields = m.Fields ∧ m.Fields k = none ∧
        ∀ x : Fin 128, (x.val : Int) ≠ k - 1 → m1.Bitmap x = m.Bitmap x) := by
  have e := parseBody_setFlag mti hex hex1 data b b1 k hk hb hb1 hset
  rw [List.append_assoc, List.append_assoc,
    ParseMessage_parts mti hex data hm (parseBitmap_length hex b hb),
    ParseMessage_parts mti hex1 data hm (parseBitmap_length hex1 b1 hb1), e]
  cases hp : parseBody mti hex data with
  | error er => simp [Result.isOk]
  | panic => simp [Result.isOk]
  | ok m0 =>
    refine ⟨rfl, by simp, ?_⟩
    intro m m1 h h1
    simp only [Result.ok.injEq] at h h1
    subst h h1
    have hbm := parseBody_bitmap mti hex data m0 hp
    rw [hb] at hbm
    simp only [Result.ok.injEq] at hbm
    refine ⟨rfl, rfl, parseBody_no_unknown mti hex data m0 k hk hp, ?_⟩
    intro x hx
    simp only
    rw [hset x, if_neg hx, hbm]

/-- Witness of C10: scenario D. Bitmap `"A000000000000000"` is `"2000000000000000"` with
the flag of field 1 set, and field 1 has no descriptor. -/
theorem ParseMessage_unknown_flag_witness :
    (ParseMessage (ascii "0800" ++ ascii "A000000000000000" ++ ascii "123456")).isOk
      = (ParseMessage (ascii "0800" ++ ascii "2000000000000000" ++ ascii "123456")).isOk ∧
    (∀ e, ParseMessage (ascii "0800" ++ ascii "A000000000000000" ++ ascii "123456")
        = Result.error e ↔
      ParseMessage (ascii "0800" ++ ascii "2000000000000000" ++ ascii "123456")
        = Result.error e) ∧
    (∀ m m1,
      ParseMessage (ascii "0800" ++ ascii "2000000000000000" ++ ascii "123456") = Result.ok m →
      ParseMessage (ascii "0800" ++ ascii "A000000000000000" ++ ascii "123456") = Result.ok m1 →
      m1.MTI = m.MTI ∧ m1.Fields = m.Fields ∧ m.Fields 1 = none ∧
        ∀ x : Fin 128, (x.val : Int) ≠ 1 - 1 → m1.Bitmap x = m.Bitmap x) :=
  ParseMessage_unknown_flag (ascii "0800") (ascii "2000000000000000")
    (ascii "A000000000000000") (ascii "123456")
    (layout (ascii "2000000000000000") 0 Bitmap.zero)
    (layout (ascii "A000000000000000") 0 Bitmap.zero) 1
    (by decide) (by decide)
    (parseBitmap_ok _ (by decide) (by decide)) (parseBitmap_ok _ (by decide) (by decide))
    (by decide)

/-! ## Claims: the wire format -/

/-- C1: `ParseMessage` decodes the documented wire format. Let `v` assign values to some of
the fields 2, 3, 4, 7, 11, 12, 13, 43, each fixed field's value having its registry length
and the value of field 2 at most 99 bytes, and let `mti` have 4 bytes. Then
`generateBitmap` of the flags of `v` returns a string `hex`, and parsing
`mti ++ hex ++ data`, where `data` concatenates the encodings of the fields of `v` in
ascending order, succeeds with that MTI, exactly those flags and a `Fields` map that is
exactly `v`. -/
theorem ParseMessage_wire_format (mti : Str) (v : Fields) (hm : mti.length = 4)
    (hv : ∀ i s, v i = some s → wireValueOk i s) :
    ∃ hex, generateBitmap (flagsOf v) = Result.ok hex ∧
      ParseMessage (mti ++ hex ++ wireData v fieldNumbers) = Result.ok ⟨mti, flagsOf v, v⟩ := by
  refine ⟨hexOf (flagsOf v), generateBitmap_eq _, ?_⟩
  rw [List.append_assoc, ParseMessage_parts mti _ _ hm (hexOf_length _)]
  exact parseBody_wire mti v hv

/-- Witness of C1 at scenario A: MTI `"0800"` and field 3 = `"123456"`. -/
theorem ParseMessage_wire_format_witness :
    (ascii "0800").length = 4 ∧
    (∀ i s, (Fields.empty.insert 3 (ascii "123456")) i = some s → wireValueOk i s) ∧
    ∃ hex, generateBitmap (flagsOf (Fields.empty.insert 3 (ascii "123456"))) = Result.ok hex ∧
      ParseMessage (ascii "0800" ++ hex
          ++ wireData (Fields.empty.insert 3 (ascii "123456")) fieldNumbers) =
        Result.ok ⟨ascii "0800", flagsOf (Fields.empty.insert 3 (ascii "123456")),
          Fields.empty.insert 3 (ascii "123456")⟩ :=
  ⟨by decide, wireValueOk_single 3 _ (by decide),
    ParseMessage_wire_format (ascii "0800") (Fields.empty.insert 3 (ascii "123456"))
      (by decide) (wireValueOk_single 3 _ (by decide))⟩

/-- Scenario A, parsed: `"08002000000000000000123456"` gives MTI `"0800"`, the flag of
field 3 alone, and a `Fields` map that is exactly `{3 -> "123456"}`. -/
theorem ParseMessage_scenario_A :
    ParseMessage (ascii "08002000000000000000123456") =
      Result.ok ⟨ascii "0800", flagsOf (Fields.empty.insert 3 (ascii "123456")),
        Fields.empty.insert 3 (ascii "123456")⟩ ∧
    ∀ x : Fin 128, flagsOf (Fields.empty.insert 3 (ascii "123456")) x = decide (x.val = 2) := by
  constructor
  · have e : ascii "08002000000000000000123456" = ascii "0800" ++
        (hexOf (flagsOf (Fields.empty.insert 3 (ascii "123456"))) ++
          wireData (Fields.empty.insert 3 (ascii "123456")) fieldNumbers) := by decide
    rw [e, ParseMessage_parts _ _ _ (by decide) (hexOf_length _)]
    exact parseBody_wire _ _ (wireValueOk_single 3 _ (by decide))
  · decide

/-- Scenario B, parsed: `"0800400000000000000016" ++ "4111111111111111"` gives MTI `"0800"`,
the flag of field 2 alone, and a `Fields` map that is exactly `{2 -> "4111111111111111"}`. -/
theorem ParseMessage_scenario_B :
    ParseMessage (ascii "0800400000000000000016" ++ ascii "4111111111111111") =
      Result.ok ⟨ascii "0800", flagsOf (Fields.empty.insert 2 (ascii "4111111111111111")),
        Fields.empty.insert 2 (ascii "4111111111111111")⟩ ∧
    ∀ x : Fin 128,
      flagsOf (Fields.empty.insert 2 (ascii "4111111111111111")) x = decide (x.val = 1) := by
  constructor
  · have e : ascii "0800400000000000000016" ++ ascii "4111111111111111" = ascii "0800" ++
        (hexOf (flagsOf (Fields.empty.insert 2 (ascii "4111111111111111"))) ++
          wireData (Fields.empty.insert 2 (ascii "4111111111111111")) fieldNumbers) := by
      decide
    rw [e, ParseMessage_parts _ _ _ (by decide) (hexOf_length _)]
    exact parseBody_wire _ _ (wireValueOk_single 2 _ (by decide))
  · decide

/-- Scenario D, parsed: `"0800A000000000000000123456"` (fields 1 and 3 flagged) gives
field 3 = `"123456"` and no field 1; the only key is 3. -/
theorem ParseMessage_scenario_D :
    fieldOf (ParseMessage (ascii "0800A000000000000000123456")) 3 = some (ascii "123456") ∧
    fieldOf (ParseMessage (ascii "0800A000000000000000123456")) 1 = none ∧
    keysOf (ParseMessage (ascii "0800A000000000000000123456")) = [3] ∧
    flaggedOf (ParseMessage (ascii "0800A000000000000000123456")) = [1, 3] := by
  decide

/-! ## The generator -/

/-- C3 at scenario A. With only field 3 flagged and field 3 = `"123456"`, `GenerateMessage`
returns the header followed by `"00"`: the loop tests `msg.Bitmap[i]`, the flag of field
`i + 1`, so at `i = 2` it emits the absent field 2 with its length digits and it never
emits field 3. The documented output is `"08002000000000000000123456"`. -/
theorem GenerateMessage_scenario_A :
    GenerateMessage scenarioA = Result.ok (ascii "0800200000000000000000") ∧
    GenerateMessage scenarioA ≠ Result.ok (ascii "08002000000000000000123456") := by
  decide

/-- Scenario B, generated. With only field 2 flagged, `GenerateMessage` returns the bare header:
at `i = 1` it emits field 1, which is absent and has no descriptor. The documented output is
`"0800400000000000000016" ++ "4111111111111111"`. -/
theorem GenerateMessage_scenario_B :
    GenerateMessage scenarioB = Result.ok (ascii "08004000000000000000") ∧
    GenerateMessage scenarioB ≠
      Result.ok (ascii "0800400000000000000016" ++ ascii "4111111111111111") := by
  decide

/-- C2 at scenario A. The message satisfies every condition of the round trip, yet parsing
what `GenerateMessage` returns fails: the data part is `"00"`, too short for field 3. -/
theorem roundtrip_scenario_A :
    scenarioA.MTI.length = 4 ∧
    (∀ x : Fin 128, scenarioA.Bitmap x = (x.val < 64 && (scenarioA.Fields (x.val + 1)).isSome)) ∧
    (∀ i s, scenarioA.Fields i = some s → i = 3 ∧ s.length = 6) ∧
    ∃ w, GenerateMessage scenarioA = Result.ok w ∧
      ParseMessage w = Result.error (Err.fixedOutOfRange 3) := by
  refine ⟨by decide, by decide, ?_, ascii "0800200000000000000000", by decide, ?_⟩
  · intro i s h
    unfold scenarioA Fields.insert at h
    simp only at h
    split at h
    · rename_i hi
      simp only [Option.some.injEq] at h
      exact ⟨hi, by rw [← h]; decide⟩
    · cases h
  · rfl

/-! ## Claims: errors of the parser -/

/-- C11: too-short input is rejected. For every wire string shorter than 20 bytes, the
empty string included, `ParseMessage` returns the error `"message too short"` (and so no
message, and not the error of the bitmap). -/
theorem ParseMessage_too_short (w : Str) (h : w.length < 20) :
    ParseMessage w = Result.error Err.messageTooShort := by
  unfold ParseMessage
  rw [if_pos (by unfold len; omega)]

/-- Witness of C11 at the empty string and at the 19 bytes `"0800200000000000000"`. -/
theorem ParseMessage_too_short_witness :
    ([] : Str).length < 20 ∧ ParseMessage [] = Result.error Err.messageTooShort ∧
    (ascii "0800200000000000000").length < 20 ∧
    ParseMessage (ascii "0800200000000000000") = Result.error Err.messageTooShort :=
  ⟨by decide, ParseMessage_too_short [] (by decide), by decide,
    ParseMessage_too_short (ascii "0800200000000000000") (by decide)⟩

/-- C12: a malformed bitmap aborts the parse. For every wire string of at least 20 bytes
whose bytes 4..19 hold a character that is not a hexadecimal digit, `ParseMessage` returns
the error `"failed to parse bitmap: failed to parse hex: ..."`, whatever follows the
bitmap. -/
theorem ParseMessage_bad_bitmap (w : Str) (hlen : 20 ≤ w.length)
    (hbad : ∃ c ∈ (w.drop 4).take 16, ¬ isHexDigit c) :
    ∃ k, ParseMessage w = Result.error (Err.failedToParseBitmap (Err.failedToParseHex k)) := by
  rw [ParseMessage_of_len w hlen]
  have hl : ((w.drop 4).take 16).length = 16 := by
    rw [List.length_take, List.length_drop]
    omega
  have hl2 : ¬ (len ((w.drop 4).take 16) ≠ 16) := by
    unfold len
    rw [hl]
    decide
  obtain ⟨k, hk⟩ := parseBitmapLoop_err ((w.drop 4).take 16) 0 Bitmap.zero (by omega) hbad
  refine ⟨k, ?_⟩
  unfold parseBody parseBitmap
  rw [if_neg hl2, hk]

/-- Witness of C12: the bitmap `"20000000000000G0"`, followed by data that would parse. -/
theorem ParseMessage_bad_bitmap_witness :
    20 ≤ (ascii "080020000000000000G0123456").length ∧
    (∃ c ∈ ((ascii "080020000000000000G0123456").drop 4).take 16, ¬ isHexDigit c) ∧
    ∃ k, ParseMessage (ascii "080020000000000000G0123456")
      = Result.error (Err.failedToParseBitmap (Err.failedToParseHex k)) :=
  ⟨by decide, by decide, ParseMessage_bad_bitmap _ (by decide) (by decide)⟩

/-! ## Claims: the generator and the padding helper -/

/-- C16 at two messages that differ only in the flag at index 64 (field 65). Both have MTI
`"0800"`, the value `"X"` under key 64 and no flag at indices 0..63, yet `GenerateMessage`
returns the bare header for one and the header followed by `"X"` for the other: at
`i = 64` the loop tests `msg.Bitmap[64]`. -/
theorem GenerateMessage_upper_flag :
    upperUnset.MTI = upperSet.MTI ∧ upperUnset.Fields = upperSet.Fields ∧
    (∀ x : Fin 128, x.val < 64 → upperUnset.Bitmap x = upperSet.Bitmap x) ∧
    GenerateMessage upperUnset = Result.ok (ascii "08000000000000000000") ∧
    GenerateMessage upperSet = Result.ok (ascii "08000000000000000000X") := by
  refine ⟨rfl, rfl, by decide, by decide, by decide⟩

/-- C17: `PadRight` pads to a total length. For a non-empty `pad` and `length ≥ 0` the loop
returns, within `length + 1` iterations, the first `length` bytes of
`str ++ pad ++ pad ++ ...`, a string of exactly `length` bytes; more fuel never changes the
result. When `len(str) ≤ length` the result is `str` followed by a truncated repetition of
`pad`, and for a one-character pad every added byte is that character. -/
theorem PadRight_pads (str pad : Str) (length : Int) (hpad : pad ≠ []) (hlen : 0 ≤ length) :
    ∃ r : Str,
      (∀ fuel, length.toNat < fuel → PadRight fuel str pad length = some (Result.ok r)) ∧
      (∀ fuel out, PadRight fuel str pad length = some out → out = Result.ok r) ∧
      r.length = length.toNat ∧
      (∀ n, length.toNat ≤ n → r = (str ++ repeatPad pad n).take length.toNat) ∧
      (str.length ≤ length.toNat →
        ∀ n, length.toNat ≤ n →
          r = str ++ (repeatPad pad n).take (length.toNat - str.length)) ∧
      (str.length ≤ length.toNat →
        ∀ c, pad = [c] → r = str ++ List.replicate (length.toNat - str.length) c) := by
  have hp : 1 ≤ pad.length := by
    cases pad with
    | nil => exact absurd rfl hpad
    | cons c t => simp
  have hbig : ∀ n, length.toNat ≤ n → length.toNat ≤ str.length + n * pad.length := by
    intro n hn
    have : n * 1 ≤ n * pad.length := Nat.mul_le_mul_left _ hp
    omega
  have hstream : ∀ n, length.toNat ≤ n →
      (str ++ repeatPad pad length.toNat).take length.toNat
        = (str ++ repeatPad pad n).take length.toNat :=
    fun n hn => take_stream_indep str pad length.toNat n length.toNat (hbig n hn)
      (hbig _ (le_refl _))
  refine ⟨(str ++ repeatPad pad length.toNat).take length.toNat, ?_, ?_, ?_, hstream, ?_, ?_⟩
  · intro fuel hf
    exact PadRight_run pad length hpad hlen fuel str (by omega)
  · intro fuel out h
    exact PadRight_unique pad length hpad hlen fuel str out h
  · rw [List.length_take, List.length_append, repeatPad_length]
    have := hbig _ (le_refl length.toNat)
    omega
  · intro hs n hn
    rw [hstream n hn, List.take_append_eq_append_take, List.take_of_length_le hs]
  · intro hs c hc
    subst hc
    rw [List.take_append_eq_append_take, List.take_of_length_le hs, repeatPad_single,
      List.take_replicate]
    congr 2
    omega

/-- Witness of C17: padding `"12"` with `"0"` to 6 bytes, and with `"ab"` to 5 bytes. -/
theorem PadRight_pads_witness :
    ascii "0" ≠ [] ∧ (0 : Int) ≤ 6 ∧
    (∃ r : Str,
      (∀ fuel, (6 : Int).toNat < fuel →
        PadRight fuel (ascii "12") (ascii "0") 6 = some (Result.ok r)) ∧
      (∀ fuel out, PadRight fuel (ascii "12") (ascii "0") 6 = some out → out = Result.ok r) ∧
      r.length = (6 : Int).toNat ∧
      (∀ n, (6 : Int).toNat ≤ n →
        r = (ascii "12" ++ repeatPad (ascii "0") n).take (6 : Int).toNat) ∧
      ((ascii "12").length ≤ (6 : Int).toNat →
        ∀ n, (6 : Int).toNat ≤ n →
          r = ascii "12" ++
            (repeatPad (ascii "0") n).take ((6 : Int).toNat - (ascii "12").length)) ∧
      ((ascii "12").length ≤ (6 : Int).toNat →
        ∀ c, ascii "0" = [c] →
          r = ascii "12" ++ List.replicate ((6 : Int).toNat - (ascii "12").length) c)) ∧
    PadRight 7 (ascii "12") (ascii "0") 6 = some (Result.ok (ascii "120000")) ∧
    PadRight 7 (ascii "12") (ascii "ab") 5 = some (Result.ok (ascii "12aba")) ∧
    PadRight 7 (ascii "123456") (ascii "0") 4 = some (Result.ok (ascii "1234")) :=
  ⟨by decide, by decide, PadRight_pads (ascii "12") (ascii "0") 6 (by decide) (by decide),
    by decide, by decide, by decide⟩

/-- C20: fields without a bitmap flag are never emitted. For every message whose bitmap
flags are all false, `GenerateMessage` returns the MTI followed by sixteen zeros, whatever
the `Fields` map holds. -/
theorem GenerateMessage_unflagged (m : Message) (h : ∀ x : Fin 128, m.Bitmap x = false) :
    GenerateMessage m = Result.ok (m.MTI ++ ascii "0000000000000000") := by
  have hflag : ∀ k, m.Bitmap.flag k = false := fun k => h _
  have hem : ∀ l : List Int, emitted m l = [] := by
    intro l
    induction l with
    | nil => rfl
    | cons i rest ih =>
      rw [emitted, ih]
      unfold emittedField
      rw [hflag]
      rfl
  have hhex : hexOf m.Bitmap = ascii "0000000000000000" := by
    have hn : ∀ i, nibble m.Bitmap i = 0 := by
      intro i
      unfold nibble
      simp [hflag]
    unfold hexOf
    simp only [hn]
    decide
  rw [GenerateMessage_eq, hem, hhex, List.append_nil]

/-- Witness of C20: the response message of the demonstration program generates
`"02100000000000000000"`, without the response code. -/
theorem GenerateMessage_unflagged_witness :
    (∀ x : Fin 128, demoResponse.Bitmap x = false) ∧
    GenerateMessage demoResponse = Result.ok (demoResponse.MTI ++ ascii "0000000000000000") ∧
    demoResponse.MTI ++ ascii "0000000000000000" = ascii "02100000000000000000" :=
  ⟨fun _ => rfl, GenerateMessage_unflagged demoResponse (fun _ => rfl), by decide⟩

/-! ## Claims: insufficient data, length digits, trailing bytes, totality -/

/-- C13: insufficient data is rejected. Take a wire string `mti ++ hex ++ data` whose
bitmap decodes to `b`, and read the fields below 63 in ascending order from the start of
`data`: `unreadAt b data i` is the offset of the first unread byte when field `i` comes to
be read, and `bytesNeeded` what the field needs there (its registry length for a flagged
fixed field, the two length digits and the number they give for a flagged field 2, nothing
otherwise). If some field below 63 needs more bytes than remain unread, `ParseMessage`
returns an error. The cursor of the loop is that offset at every iteration it reaches, and a
flagged fixed field reached with too few bytes left gives the range error of that field;
field 2 with digits that ask for more than remains gives the range error of field 2. In
particular `ParseMessage` returns an error whenever `data` is shorter than the sum of the
registry lengths of the flagged fixed fields plus 2 if field 2 is flagged. -/
theorem ParseMessage_insufficient (mti hex data : Str) (b : Bitmap) (hm : mti.length = 4)
    (hb : parseBitmap hex = Result.ok b) :
    (∀ i, 1 ≤ i → i < 63 →
      unreadAt b data i + bytesNeeded b data i (unreadAt b data i) > len data →
      ∃ e, ParseMessage (mti ++ hex ++ data) = Result.error e) ∧
    (∀ i p f, i ∈ fieldNumbers → loopState b data i = some (p, f) →
      p = unreadAt b data i ∧
      ∀ desc, b.get? (i - 1) = some true → fieldDescriptors i = some desc →
        desc.Variable = false → unreadAt b data i + desc.Length > len data →
        ParseMessage (mti ++ hex ++ data) = Result.error (Err.fixedOutOfRange i)) ∧
    (∀ n, b.get? 1 = some true → 2 ≤ len data → Atoi (data.take 2) = some n →
      2 + n > len data →
      ParseMessage (mti ++ hex ++ data) = Result.error (Err.dataOutOfRange 2)) ∧
    (len data < minDataLength b fieldNumbers →
      ∃ e, ParseMessage (mti ++ hex ++ data) = Result.error e) := by
  have hh := parseBitmap_length hex b hb
  rw [List.append_assoc, ParseMessage_parts mti hex data hm hh]
  refine ⟨?_, ?_, ?_, ?_⟩
  · intro i hi1 hi2 hgt
    apply parseBody_error_of_not_ok
    intro m hok
    have hf := parseBody_fields_ok mti hex data b m hb hok
    have := unread_le_of_ok b data m.Fields i hi1 hi2 hf
    omega
  · intro i p f hi hst
    have hp := loopState_unread b data i p f hst
    refine ⟨hp, ?_⟩
    intro desc hflag hd hv hgt
    apply parseBody_fail_at mti hex data b i p f _ hb hi hst
    have h43 : i = 43 → desc.Length = 40 := by
      rcases fieldDescriptors_cases i desc hd with ⟨_, hc⟩ | ⟨_, hc⟩ | ⟨_, _, h43, _⟩
      · rw [hc] at hv; cases hv
      · rw [hc] at hv; cases hv
      · exact h43
    rw [parseField_fixed_eq b data i p f desc hflag hd hv h43, if_pos (by omega)]
  · intro n hflag hle hat hgt
    apply parseBody_fail_at mti hex data b 2 0 Fields.empty _ hb (by decide)
      (loopState_2 b data)
    rw [parseField_2_eq b data 0 Fields.empty hflag, if_neg (by omega),
      slice_zero data (0 + 2) (by omega) (by omega)]
    simp only
    have e2 : ((0 : Int) + 2).toNat = 2 := rfl
    rw [e2, hat]
    simp only
    rw [if_neg (by omega), if_pos (by omega)]
  · intro hshort
    apply parseBody_error_of_not_ok
    intro m hok
    have hf := parseBody_fields_ok mti hex data b m hb hok
    have := parseFields_min b data fieldNumbers 0 Fields.empty m.Fields fieldNumbers_after_63
      (fun i hi => (mem_fieldNumbers i).mp hi) (le_refl 0) (len_nonneg data) hf
    omega

/-- Witness of C13: in `"08002000000000000000" ++ "12345"` field 3 needs 6 bytes and 5 are
left; in `"08006000000000000000" ++ "05ABCDE123"` field 2 takes 7 bytes, so field 3 is read
at offset 7 and needs 6 bytes where 3 are left. -/
theorem ParseMessage_insufficient_witness :
    (∃ e, ParseMessage (ascii "0800" ++ ascii "2000000000000000" ++ ascii "12345")
      = Result.error e) ∧
    unreadAt (layout (ascii "6000000000000000") 0 Bitmap.zero) (ascii "05ABCDE123") 3 = 7 ∧
    (∃ e, ParseMessage (ascii "0800" ++ ascii "6000000000000000" ++ ascii "05ABCDE123")
      = Result.error e) ∧
    ParseMessage (ascii "0800" ++ ascii "2000000000000000" ++ ascii "12345")
      = Result.error (Err.fixedOutOfRange 3) ∧
    ParseMessage (ascii "0800" ++ ascii "6000000000000000" ++ ascii "05ABCDE123")
      = Result.error (Err.fixedOutOfRange 3) ∧
    ParseMessage (ascii "0800" ++ ascii "4000000000000000" ++ ascii "05ABCD")
      = Result.error (Err.dataOutOfRange 2) :=
  ⟨(ParseMessage_insufficient (ascii "0800") (ascii "2000000000000000") (ascii "12345")
      (layout (ascii "2000000000000000") 0 Bitmap.zero) (by decide)
      (parseBitmap_ok _ (by decide) (by decide))).1 3 (by decide) (by decide) (by decide),
    by decide,
    (ParseMessage_insufficient (ascii "0800") (ascii "6000000000000000") (ascii "05ABCDE123")
      (layout (ascii "6000000000000000") 0 Bitmap.zero) (by decide)
      (parseBitmap_ok _ (by decide) (by decide))).1 3 (by decide) (by decide) (by decide),
    rfl, rfl,
    (ParseMessage_insufficient (ascii "0800") (ascii "4000000000000000") (ascii "05ABCD")
      (layout (ascii "4000000000000000") 0 Bitmap.zero) (by decide)
      (parseBitmap_ok _ (by decide) (by decide))).2.2.1 5 (by decide) (by decide) (by decide)
      (by decide)⟩

/-- C14, as the code has it: the length digits of field 2 must be a two-byte string that
`strconv.Atoi` turns into a number that is not negative. For a wire string
`mti ++ hex ++ data` whose bitmap flags field 2, `ParseMessage` returns an error if `data`
has fewer than 2 bytes, or if its first two bytes are neither two decimal digits, nor `'+'`
and a digit, nor `"-0"`. -/
theorem ParseMessage_length_digits (mti hex data : Str) (b : Bitmap) (hm : mti.length = 4)
    (hb : parseBitmap hex = Result.ok b) (h2 : b.get? 1 = some true) :
    (len data < 2 →
      ParseMessage (mti ++ hex ++ data) = Result.error (Err.lengthPfxOutOfRange 2)) ∧
    (2 ≤ len data → ¬ acceptedPfx (data.take 2) →
      ParseMessage (mti ++ hex ++ data) = Result.error (Err.invalidLengthPfx 2)) := by
  have hh := parseBitmap_length hex b hb
  rw [List.append_assoc, ParseMessage_parts mti hex data hm hh]
  constructor
  · intro h
    exact parseBody_fail_at mti hex data b 2 0 Fields.empty _ hb (by decide)
      (loopState_2 b data) (parseField_2_short b data Fields.empty h2 h)
  · intro h hr
    exact parseBody_fail_at mti hex data b 2 0 Fields.empty _ hb (by decide)
      (loopState_2 b data) (parseField_2_rejected b data Fields.empty h2 h hr)

/-- Witness of C14: the data `"5"` is too short, and the digits `"1a"` are rejected. -/
theorem ParseMessage_length_digits_witness :
    ParseMessage (ascii "0800" ++ ascii "4000000000000000" ++ ascii "5")
      = Result.error (Err.lengthPfxOutOfRange 2) ∧
    ParseMessage (ascii "0800" ++ ascii "4000000000000000" ++ ascii "1a4111")
      = Result.error (Err.invalidLengthPfx 2) :=
  ⟨(ParseMessage_length_digits (ascii "0800") (ascii "4000000000000000") (ascii "5")
      (layout (ascii "4000000000000000") 0 Bitmap.zero) (by decide)
      (parseBitmap_ok _ (by decide) (by decide)) (by decide)).1 (by decide),
   (ParseMessage_length_digits (ascii "0800") (ascii "4000000000000000") (ascii "1a4111")
      (layout (ascii "4000000000000000") 0 Bitmap.zero) (by decide)
      (parseBitmap_ok _ (by decide) (by decide)) (by decide)).2 (by decide) (by decide)⟩

/-- C14 fails as stated: in `"0800" ++ "4000000000000000" ++ "+512345"` the bitmap flags
field 2 and the two bytes read as length digits, `"+5"`, are not both decimal digits, yet
`ParseMessage` succeeds and stores `"12345"` under key 2; so it does with `"-0"`, storing
the empty string. -/
theorem ParseMessage_signed_digits :
    flagOf (ParseMessage (ascii "0800" ++ ascii "4000000000000000" ++ ascii "+512345")) 1
      = true ∧
    ¬ (∀ c ∈ (ascii "+512345").take 2, isDigit c) ∧
    (ParseMessage (ascii "0800" ++ ascii "4000000000000000" ++ ascii "+512345")).isOk = true ∧
    fieldOf (ParseMessage (ascii "0800" ++ ascii "4000000000000000" ++ ascii "+512345")) 2
      = some (ascii "12345") ∧
    ¬ (∀ c ∈ (ascii "-0").take 2, isDigit c) ∧
    fieldOf (ParseMessage (ascii "0800" ++ ascii "4000000000000000" ++ ascii "-0")) 2
      = some [] := by
  decide

/-- C15: trailing bytes are discarded. For every wire string `w` on which `ParseMessage`
succeeds with a bitmap that does not flag field 63, and every string `s`,
`ParseMessage (w ++ s)` succeeds with the same message. -/
theorem ParseMessage_trailing (w s : Str) (m : Message) (h : ParseMessage w = Result.ok m)
    (h63 : m.Bitmap.flag 62 = false) : ParseMessage (w ++ s) = Result.ok m := by
  have hlen := ParseMessage_len_of_ok w m h
  rw [ParseMessage_of_len w hlen] at h
  rw [ParseMessage_of_len (w ++ s) (by rw [List.length_append]; omega)]
  have e1 : (w ++ s).take 4 = w.take 4 := List.take_append_of_le_length (by omega)
  have e2 : ((w ++ s).drop 4).take 16 = (w.drop 4).take 16 :=
    drop_take_append w s 4 16 (by omega)
  have e3 : (w ++ s).drop 20 = w.drop 20 ++ s := List.drop_append_of_le_length (by omega)
  rw [e1, e2, e3]
  exact parseBody_append _ _ _ s m h h63

/-- Witness of C15: scenario A followed by `"TRAILING"`. -/
theorem ParseMessage_trailing_witness :
    ∃ m, ParseMessage (ascii "08002000000000000000123456") = Result.ok m ∧
      m.Bitmap.flag 62 = false ∧
      ParseMessage (ascii "08002000000000000000123456" ++ ascii "TRAILING") = Result.ok m :=
  (ok_of_isOk (ParseMessage (ascii "08002000000000000000123456")) (by decide)).elim
    (fun m h =>
      have h63 : m.Bitmap.flag 62 = false := by
        have e : flagOf (ParseMessage (ascii "08002000000000000000123456")) 62 = false := by
          decide
        rw [h] at e
        exact e
      ⟨m, h, h63, ParseMessage_trailing _ (ascii "TRAILING") m h h63⟩)

/-- C18: `ParseMessage` is total on arbitrary input. For every string it returns a message
or an error, never a panic: no slice or index expression is out of range. For every bitmap
`b` and data part `d`, the cursor at the start of any iteration the loop reaches satisfies
`0 ≤ position ≤ len(d)`. -/
theorem ParseMessage_total (w : Str) (b : Bitmap) (d : Str) (i p : Int) (f : Fields) :
    ((∃ m, ParseMessage w = Result.ok m) ∨ (∃ e, ParseMessage w = Result.error e)) ∧
    (loopState b d i = some (p, f) → 0 ≤ p ∧ p ≤ len d) := by
  constructor
  · cases h : ParseMessage w with
    | ok m => exact Or.inl ⟨m, rfl⟩
    | error e => exact Or.inr ⟨e, rfl⟩
    | panic => exact absurd h (ParseMessage_ne_panic w)
  · exact loopState_bounds b d i p f

/-- Examples for C18: the length digits `"-5"` give a negative number and the parse returns
the error of the length digits; with field 63 flagged and no data left the parse stores the
empty remainder. -/
theorem ParseMessage_total_examples :
    ParseMessage (ascii "0800" ++ ascii "4000000000000000" ++ ascii "-5ABCDE")
      = Result.error (Err.invalidLengthPfx 2) ∧
    fieldOf (ParseMessage (ascii "0800" ++ ascii "2000000000000002" ++ ascii "123456")) 63
      = some [] ∧
    keysOf (ParseMessage (ascii "0800" ++ ascii "2000000000000002" ++ ascii "123456"))
      = [3, 63] :=
  ⟨rfl, by decide, by decide⟩

/-- C19: parsed values tile the data part. For every wire string on which `ParseMessage`
succeeds, the stored values concatenated in ascending field order, the value of field 2
preceded by the two bytes read as its length digits (the first two bytes of the data part,
field 2 being the first field with a descriptor), are a prefix of `wire[20:]`, and all of
it when the bitmap flags field 63. Every stored value of a fixed field has its registry
length, and the value stored for field 2 has the length its digits give: nothing is
trimmed. -/
theorem ParseMessage_tiles (w : Str) (m : Message) (h : ParseMessage w = Result.ok m) :
    tiles m.Fields ((w.drop 20).take 2) fieldNumbers <+: w.drop 20 ∧
    (m.Bitmap.flag 62 = true →
      tiles m.Fields ((w.drop 20).take 2) fieldNumbers = w.drop 20) ∧
    (∀ i desc s, fieldDescriptors i = some desc → desc.Variable = false →
      m.Fields i = some s → len s = desc.Length) ∧
    (∀ s, m.Fields 2 = some s → Atoi ((w.drop 20).take 2) = some (len s)) := by
  have hlen := ParseMessage_len_of_ok w m h
  rw [ParseMessage_of_len w hlen] at h
  have hbm := parseBody_bitmap _ _ _ m h
  unfold parseBody at h
  rw [hbm] at h
  simp only at h
  cases hf : parseFields m.Bitmap (w.drop 20) fieldNumbers 0 Fields.empty with
  | error e => rw [hf] at h; cases h
  | panic => rw [hf] at h; cases h
  | ok f =>
    rw [hf] at h
    simp only [Result.ok.injEq] at h
    have hfields : m.Fields = f := by rw [← h]
    rw [hfields]
    obtain ⟨⟨q, _, hq, ht, h63⟩, hfix, hat⟩ := parseFields_tiles_all m.Bitmap (w.drop 20) f hf
    refine ⟨?_, ?_, hfix, hat⟩
    · rw [ht]
      exact List.take_prefix _ _
    · intro hflag
      have hg : m.Bitmap.get? 62 = some true := by
        have := get?_fieldNumber m.Bitmap 63 (by decide) (by decide)
        have e : (63 : Int) - 1 = 62 := rfl
        rw [e] at this
        rw [this]
        have e2 : ((62 : Int)).toNat = 62 := rfl
        rw [e2, hflag]
      rw [ht, h63 hg]
      apply List.take_of_length_le
      unfold len
      omega

/-- Witness of C19 at the message of the demonstration program, which flags fields 3, 11,
12, 13, 43 and 63. -/
theorem ParseMessage_tiles_witness :
    ∃ m, ParseMessage (ascii "0800" ++ ascii "2038000000200002" ++
        ascii "8100000000010849090522SAV00Z057631    SAVNGX100110020000......" ++ ascii "END") =
        Result.ok m ∧
      tiles m.Fields (((ascii "0800" ++ ascii "2038000000200002" ++
          ascii "8100000000010849090522SAV00Z057631    SAVNGX100110020000......" ++
          ascii "END").drop 20).take 2) fieldNumbers <+:
        (ascii "0800" ++ ascii "2038000000200002" ++
          ascii "8100000000010849090522SAV00Z057631    SAVNGX100110020000......" ++
          ascii "END").drop 20 :=
  (ok_of_isOk (ParseMessage (ascii "0800" ++ ascii "2038000000200002" ++
      ascii "8100000000010849090522SAV00Z057631    SAVNGX100110020000......" ++ ascii "END"))
    (by decide)).elim
    (fun m h => ⟨m, h, (ParseMessage_tiles _ m h).1⟩)

end Iso8583
